import Mathlib

/-!
# GOTCHA `gotcha_auxv.c`: vDSO detection and auxiliary-vector page size

A shallow embedding of `src/gotcha_auxv.c` (LP64, little-endian: `ElfW(x)` is
`Elf64_x`, an `auxv_t` record is 16 bytes, `int` is 32 bits) and theorems about it.

* C objects that the code reads before writing them (the stack array `buffer`,
  the local `vdso_dynamic`, the locals of `get_vdso_from_maps`) start with an
  indeterminate content, which the environment `Env` supplies.
* An access outside the object it indexes is the outcome `Outcome.fault`.
* Loops without a bound of their own are given fuel, and running out of fuel is
  the outcome `Outcome.timeout`. The loops of `parse_auxv_contents` get a fuel
  that is always enough (`parse_auxv_contents_total`); the `for (;;)` of
  `get_vdso_from_maps` can really run forever and takes its fuel as an argument.
-/

namespace Gotcha

/-! ## Constants of `<elf.h>` and of the source -/

def AT_NULL : Nat := 0
def AT_PAGESZ : Nat := 6
def AT_SYSINFO_EHDR : Nat := 33
def PT_DYNAMIC : Nat := 2

/-- Size of `char buffer[4096]` in `parse_auxv_contents`. -/
def buffer_size : Nat := 4096

/-- Number of values of `ElfW(Addr)` and of `a_un.a_val` (64-bit words). -/
def WORD : Nat := 2 ^ 64

/-- The table `vdso_aliases` (without its terminating `NULL`). -/
def vdso_aliases : List String := ["linux-vdso.so", "linux-gate.so"]

/-! ## Outcomes -/

/-- Result of running a piece of the program. -/
inductive Outcome (α : Type) where
  | ok (a : α)
  | fault
  | timeout
  deriving Repr, DecidableEq

/-! ## The dynamic linker's module chain -/

/-- One `struct link_map`. `self` is the address of the structure (what a
`struct link_map *` holds, never 0 for a real node), `l_name` is `none` for a
`NULL` name, `l_ld` is the dynamic-section pointer as an integer; `l_addr` and
`l_ld` are 64-bit values. The chain `_r_debug.r_map` is the list of nodes in
`l_next` order. -/
structure link_map where
  self : Nat
  l_addr : Nat
  l_name : Option String
  l_ld : Nat
  deriving Repr, DecidableEq

/-- A chain as the dynamic linker builds it: node addresses are non-null and
pairwise different. -/
def chain_ok (chain : List link_map) : Prop :=
  (∀ m ∈ chain, m.self ≠ 0) ∧ (chain.map link_map.self).Nodup

/-- The test `m->l_name && strcmp(m->l_name, *aliases) == 0`. -/
def name_is (m : link_map) (a : String) : Bool :=
  match m.l_name with
  | none => false
  | some n => n == a

/-- The inner loop of `get_vdso_from_aliases`: does some alias equal the name. -/
def alias_match (m : link_map) : List String → Bool
  | [] => false
  | a :: rest => if name_is m a then true else alias_match m rest

/-- The function `get_vdso_from_aliases`: pointer to the first node whose name is
an alias, 0 (`NULL`) when there is none. -/
def get_vdso_from_aliases : List link_map → Nat
  | [] => 0
  | m :: rest => if alias_match m vdso_aliases then m.self else get_vdso_from_aliases rest

/-! ## Process-wide state -/

/-- The static variables of the file (`vdso_ehdr`, `auxv_pagesz`, and the
function-local statics `parsed_auxv`, `vdso_checked`, `vdso`), followed by four
ghost counters of the calls made to the two sources: `gotcha_open`/`gotcha_read`
on `/proc/self/auxv` and `fopen`/`fgets` on `/proc/self/maps`. Pointers are
integers, 0 is `NULL`. -/
structure State where
  vdso_ehdr : Nat
  auxv_pagesz : Int
  parsed_auxv : Int
  vdso_checked : Bool
  vdso : Nat
  auxv_opens : Nat
  auxv_reads : Nat
  maps_opens : Nat
  maps_reads : Nat
  deriving Repr, DecidableEq

/-- The state of a process in which nothing of this file has run yet. -/
def fresh : State :=
  { vdso_ehdr := 0, auxv_pagesz := 0, parsed_auxv := 0, vdso_checked := false, vdso := 0,
    auxv_opens := 0, auxv_reads := 0, maps_opens := 0, maps_reads := 0 }

/-! ## The sources -/

/-- What one call of `gotcha_read` on `/proc/self/auxv` gives: `-1` with
`errno == EINTR`, `-1` with another `errno`, or the next bytes of the file.
The file is the list of these; once the list is used up every read returns 0. -/
inductive ReadResult where
  | eintr
  | error
  | data (bytes : List Nat)
  deriving Repr, DecidableEq

/-- The fields of `Elf64_Ehdr` the code reads. -/
structure Ehdr where
  e_phoff : Nat
  e_phnum : Nat
  deriving Repr, DecidableEq

/-- The fields of `Elf64_Phdr` the code reads. -/
structure Phdr where
  p_type : Nat
  p_vaddr : Nat
  deriving Repr, DecidableEq

/-- What `sscanf(line, "%lx-%lx %*s %*s %*s %*s %4096s\n", &addr_begin, &addr_end, name)`
does with one line of `/proc/self/maps`: how many of the three conversions it
assigns (its return value, a failure before the first counting as none) and the
values assigned. A line with a pathname or label field is `three`; a line
without one (an anonymous mapping) is `two`. -/
inductive Scan where
  | zero
  | one (addr_begin : Nat)
  | two (addr_begin addr_end : Nat)
  | three (addr_begin addr_end : Nat) (name : String)
  deriving Repr, DecidableEq

/-- The size of the local arrays `line` and `name` of `get_vdso_from_maps`
(`char name[4096], line[4096];`, line 150). -/
def line_size : Nat := 4096

/-- A line of text as `get_vdso_from_maps` meets it: `chars` is the number of its
characters, the closing newline included, and `scan` is what `sscanf` does with
the line. For the indeterminate bytes that the array `line` holds on entry,
`chars` is the number of bytes before the first NUL, `line_size` or more when
the array holds none. -/
structure MapsLine where
  chars : Nat
  scan : Scan
  deriving Repr, DecidableEq

/-- Everything outside the file that the code looks at. Addresses and the
fields of ELF structures are values of their C types (64-bit, `e_phnum` 16-bit).
* `auxv`: `/proc/self/auxv`, `none` when `gotcha_open` returns `-1`;
* `buffer0 i`: the indeterminate byte that `buffer[i]` holds on entry;
* `r_map`: the chain `_r_debug.r_map`;
* `ehdr_at`, `phdr_at`: the ELF header and program header found at an address;
* `vdso_dynamic0`: the indeterminate initial value of the local `vdso_dynamic`;
* `maps`: `/proc/self/maps`, one element per line of the file (every line ends
  with a newline, as the kernel writes them), `none` when `fopen` returns `NULL`;
* `line0`, `addr_begin0`, `addr_end0`, `name0`: what the uninitialised locals of
  `get_vdso_from_maps` hold on entry. -/
structure Env where
  auxv : Option (List ReadResult)
  buffer0 : Nat → Nat
  r_map : List link_map
  ehdr_at : Nat → Ehdr
  phdr_at : Nat → Phdr
  vdso_dynamic0 : Nat
  maps : Option (List MapsLine)
  line0 : MapsLine
  addr_begin0 : Nat
  addr_end0 : Nat
  name0 : String

/-! ## `parse_auxv_contents` -/

/-- Value of a run of bytes read as a little-endian integer. -/
def le_value : List Nat → Nat
  | [] => 0
  | b :: bs => b % 256 + 256 * le_value bs

/-- The 64-bit word at byte offset `off` of `mem`. -/
def word_at (mem : List Nat) (off : Nat) : Nat :=
  le_value ((mem.drop off).take 8)

/-- The conversion `(int) a->a_un.a_val` of a 64-bit unsigned value. -/
def to_int (v : Nat) : Int :=
  if v % 2 ^ 32 < 2 ^ 31 then ((v % 2 ^ 32 : Nat) : Int) else ((v % 2 ^ 32 : Nat) : Int) - 2 ^ 32

/-- The array `buffer` on entry. -/
def buffer_init (env : Env) : List Nat :=
  (List.range buffer_size).map env.buffer0

/-- Writing `bytes` into `buf` from byte offset `off` on. -/
def store (buf : List Nat) (off : Nat) (bytes : List Nat) : List Nat :=
  buf.take off ++ bytes ++ buf.drop (off + bytes.length)

/-- One call `gotcha_read(fd, buffer+offset, count)`: what it returns and what is
left of the file. A read never returns more than `count` bytes; what does not
fit stays for the next read. -/
def gotcha_read : List ReadResult → Nat → ReadResult × List ReadResult
  | [], _ => (.data [], [])
  | .eintr :: rest, _ => (.eintr, rest)
  | .error :: rest, _ => (.error, rest)
  | .data c :: rest, count =>
    if c.length ≤ count then (.data c, rest)
    else (.data (c.take count), .data (c.drop count) :: rest)

/-- The locals of `parse_auxv_contents` that live across loop iterations, and the
number of `gotcha_read` calls made. -/
structure Reader where
  src : List ReadResult
  buffer : List Nat
  offset : Nat
  reads : Nat
  deriving Repr, DecidableEq

/-- How the inner `for (;;)` is left: `return -1`, `break` with `done = 1`, or
`break` at `offset == buffer_size`. -/
inductive ReadExit where
  | failed
  | done
  | full
  deriving Repr, DecidableEq

/-- The inner `for (;;)` of `parse_auxv_contents` (lines 55-73), with fuel. -/
def read_loop : Nat → Reader → Option (ReadExit × Reader)
  | 0, _ => none
  | fuel + 1, r =>
    match gotcha_read r.src (buffer_size - r.offset) with
    | (.eintr, src) => read_loop fuel { r with src := src, reads := r.reads + 1 }
    | (.error, src) => some (.failed, { r with src := src, reads := r.reads + 1 })
    | (.data bytes, src) =>
      let r1 : Reader :=
        { r with src := src, reads := r.reads + 1, buffer := store r.buffer r.offset bytes }
      if bytes.length = 0 then some (.done, r1)
      else if r.offset = buffer_size then some (.full, r1)
      else read_loop fuel { r1 with offset := r.offset + bytes.length }

/-- The decoding loop `for (a = auxv; a->a_type != AT_NULL; a++)` (lines 76-83).
`a` is the index of the record `a` points to and the first argument is the number
of whole records between `a` and the end of `buffer`: when it is 0, `a` points
past the end of the array and reading `a->a_type` is a fault. -/
def scan_auxv (buf : List Nat) : Nat → Nat → State → Outcome State
  | 0, _, _ => .fault
  | n + 1, a, s =>
    let a_type := word_at buf (16 * a)
    let a_val := word_at buf (16 * a + 8)
    if a_type = AT_NULL then .ok s
    else if a_type = AT_SYSINFO_EHDR then scan_auxv buf n (a + 1) { s with vdso_ehdr := a_val }
    else if a_type = AT_PAGESZ then scan_auxv buf n (a + 1) { s with auxv_pagesz := to_int a_val }
    else scan_auxv buf n (a + 1) s

/-- The `do ... while (!done)` of `parse_auxv_contents` (lines 54-84): the first
argument bounds the number of rounds, the second is the fuel of each inner loop. -/
def parse_loop : Nat → Nat → Reader → State → Outcome (Int × State)
  | 0, _, _, _ => .timeout
  | n + 1, fuel, r, s =>
    match read_loop fuel r with
    | none => .timeout
    | some (.failed, r1) =>
      .ok (-1, { s with parsed_auxv := -1, auxv_reads := s.auxv_reads + r1.reads })
    | some (exit, r1) =>
      match scan_auxv r1.buffer (buffer_size / 16) 0 s with
      | .ok s1 =>
        if exit = .done then .ok (0, { s1 with auxv_reads := s1.auxv_reads + r1.reads })
        else parse_loop n fuel { r1 with reads := 0 }
          { s1 with auxv_reads := s1.auxv_reads + r1.reads }
      | .fault => .fault
      | .timeout => .timeout

/-- The function `parse_auxv_contents`. The loops are bounded by the length of the
file script: every round of the inner loop uses up an element of it, ends the
loop, or fills the buffer. -/
def parse_auxv_contents (env : Env) (s : State) : Outcome (Int × State) :=
  if s.parsed_auxv ≠ 0 then
    .ok (if s.parsed_auxv = -1 then s.parsed_auxv else 0, s)
  else
    let s1 : State := { s with parsed_auxv := 1, auxv_opens := s.auxv_opens + 1 }
    match env.auxv with
    | none => .ok (-1, { s1 with parsed_auxv := -1 })
    | some src =>
      parse_loop (src.length + 2) (src.length + 2)
        { src := src, buffer := buffer_init env, offset := 0, reads := 0 } s1

/-- The function `get_auxv_pagesize`. -/
def get_auxv_pagesize (env : Env) (s : State) : Outcome (Int × State) :=
  match parse_auxv_contents env s with
  | .ok (result, s1) => if result = -1 then .ok (0, s1) else .ok (s1.auxv_pagesz, s1)
  | .fault => .fault
  | .timeout => .timeout

/-! ## `get_vdso_from_auxv` -/

/-- The loop over the program headers (lines 104-108): `vdso_phdrs` is the address
of the table, entries are 56 bytes apart, `d` is the current value of the local
`vdso_dynamic`. The last `PT_DYNAMIC` entry wins; without one `d` is unchanged. -/
def phdr_loop (env : Env) (vdso_phdrs vdso_phdr_num d : Nat) : Nat :=
  (List.range vdso_phdr_num).foldl
    (fun d p =>
      if (env.phdr_at (vdso_phdrs + 56 * p)).p_type = PT_DYNAMIC then
        (env.phdr_at (vdso_phdrs + 56 * p)).p_vaddr
      else d) d

/-- The loop over the chain of `get_vdso_from_auxv` (lines 110-114); the sum
`m->l_addr + vdso_dynamic` is an `ElfW(Addr)` and wraps at 64 bits. -/
def match_dynamic (vdso_dynamic : Nat) : List link_map → Nat
  | [] => 0
  | m :: rest =>
    if (m.l_addr + vdso_dynamic) % WORD = m.l_ld then m.self
    else match_dynamic vdso_dynamic rest

/-- The function `get_vdso_from_auxv`. The memory at `vdso_ehdr` is read through
`Env.ehdr_at` and `Env.phdr_at`, whatever the address. -/
def get_vdso_from_auxv (env : Env) (s : State) : Outcome (Nat × State) :=
  match parse_auxv_contents env s with
  | .ok (_, s1) =>
    if s1.vdso_ehdr = 0 then .ok (0, s1)
    else
      let vdso_phdrs := ((env.ehdr_at s1.vdso_ehdr).e_phoff + s1.vdso_ehdr) % WORD
      let vdso_phdr_num := (env.ehdr_at s1.vdso_ehdr).e_phnum
      let vdso_dynamic := phdr_loop env vdso_phdrs vdso_phdr_num env.vdso_dynamic0
      .ok (match_dynamic vdso_dynamic env.r_map, s1)
  | .fault => .fault
  | .timeout => .timeout

/-! ## `get_vdso_from_maps` -/

/-- The stream `maps` and the locals of `get_vdso_from_maps`: the lines not yet
read, the end-of-file indicator, the content of `line`, `addr_begin`,
`addr_end`, `name`, and the number of `fgets` calls. -/
structure MapsReader where
  rest : List MapsLine
  eof : Bool
  line : MapsLine
  addr_begin : Nat
  addr_end : Nat
  name : String
  reads : Nat
  deriving Repr, DecidableEq

/-- The call `fgets(line, 4097, maps)` on `char line[4096]` (lines 150 and 155). It
stores the characters of the next line, at most `4097 - 1` of them, and a NUL
after them. A line of 4096 or more characters makes that 4097 bytes, one more
than `line` has: the NUL is written past the end of the array, a fault. At the
end of the file `line` is left as it is and the end-of-file indicator is set. -/
def fgets (r : MapsReader) : Outcome MapsReader :=
  match r.rest with
  | [] => .ok { r with eof := true, reads := r.reads + 1 }
  | l :: rest =>
    if line_size < min l.chars (4097 - 1) + 1 then .fault
    else .ok { r with rest := rest, line := l, reads := r.reads + 1 }

/-- The call `sscanf(line, ..., &addr_begin, &addr_end, name)`: its return value
and the locals after it. When `line` holds no NUL the argument is not a string
and the call reads past the end of the array: a fault (this can only be the
array as it was on entry, `fgets` stores a NUL). The name field of a string
that lies within `line` has fewer than 4096 characters, so `%4096s` and its NUL
stay within `name`. -/
def sscanf (r : MapsReader) : Outcome (Nat × MapsReader) :=
  if line_size ≤ r.line.chars then .fault
  else
    match r.line.scan with
    | .zero => .ok (0, r)
    | .one b => .ok (1, { r with addr_begin := b })
    | .two b e => .ok (2, { r with addr_begin := b, addr_end := e })
    | .three b e n => .ok (3, { r with addr_begin := b, addr_end := e, name := n })

/-- The `for (;;)` of `get_vdso_from_maps` (lines 154-168), with fuel: `ok true`
when it is left by `break` (a `[vdso]` line was found), `ok false` when it is
left by `return NULL`, `fault` when `fgets` or `sscanf` leaves the array `line`,
`timeout` when the fuel runs out. -/
def maps_loop : Nat → MapsReader → Outcome (Bool × MapsReader)
  | 0, _ => .timeout
  | fuel + 1, r =>
    match fgets r with
    | .fault => .fault
    | .timeout => .timeout
    | .ok r0 =>
      match sscanf r0 with
      | .fault => .fault
      | .timeout => .timeout
      | .ok r1 =>
        if r1.1 ≠ 3 then maps_loop fuel r1.2
        else if r1.2.name = "[vdso]" then .ok (true, r1.2)
        else if r1.2.eof then .ok (false, r1.2)
        else maps_loop fuel r1.2

/-- The loop over the chain of `get_vdso_from_maps` (lines 170-174). -/
def match_range (addr_begin addr_end : Nat) : List link_map → Nat
  | [] => 0
  | m :: rest =>
    if addr_begin ≤ m.l_ld ∧ m.l_ld < addr_end then m.self
    else match_range addr_begin addr_end rest

/-- The function `get_vdso_from_maps`, with the fuel of its `for (;;)`. When
`fopen` returns `NULL`, `fgets` is called on the null stream: a fault. A line of
4096 or more characters, met before the loop is left, is a fault as well: see
`fgets`. -/
def get_vdso_from_maps (fuel : Nat) (env : Env) (s : State) : Outcome (Nat × State) :=
  match env.maps with
  | none => .fault
  | some lines =>
    match maps_loop fuel
        { rest := lines, eof := false, line := env.line0, addr_begin := env.addr_begin0,
          addr_end := env.addr_end0, name := env.name0, reads := 0 } with
    | .fault => .fault
    | .timeout => .timeout
    | .ok (found, r) =>
      let s1 : State :=
        { s with maps_opens := s.maps_opens + 1, maps_reads := s.maps_reads + r.reads }
      if found then .ok (match_range r.addr_begin r.addr_end env.r_map, s1)
      else .ok (0, s1)

/-! ## `is_vdso` -/

/-- The function `is_vdso`; `map` is the pointer argument, `fuel` the fuel of the
loop of `get_vdso_from_maps`, the result is the returned `int` as a truth value. -/
def is_vdso (fuel : Nat) (env : Env) (s : State) (map : Nat) : Outcome (Bool × State) :=
  if map = 0 then .ok (false, s)
  else if s.vdso_checked then .ok (map == s.vdso, s)
  else
    let s1 : State := { s with vdso_checked := true }
    if get_vdso_from_aliases env.r_map ≠ 0 then
      .ok (map == get_vdso_from_aliases env.r_map,
        { s1 with vdso := get_vdso_from_aliases env.r_map })
    else
      match get_vdso_from_auxv env s1 with
      | .fault => .fault
      | .timeout => .timeout
      | .ok (result, s2) =>
        if result ≠ 0 then .ok (map == result, { s2 with vdso := result })
        else
          match get_vdso_from_maps fuel env s2 with
          | .fault => .fault
          | .timeout => .timeout
          | .ok (result, s3) =>
            if result ≠ 0 then .ok (map == result, { s3 with vdso := result })
            else .ok (false, s3)

/-- A sequence of calls of `is_vdso`, each with its own fuel, environment and
argument: the values returned and the state left. -/
def is_vdso_calls (s : State) : List (Nat × Env × Nat) → Outcome (List Bool × State)
  | [] => .ok ([], s)
  | q :: rest =>
    match is_vdso q.1 q.2.1 s q.2.2 with
    | .fault => .fault
    | .timeout => .timeout
    | .ok (b, s1) =>
      match is_vdso_calls s1 rest with
      | .fault => .fault
      | .timeout => .timeout
      | .ok (bs, s2) => .ok (b :: bs, s2)

/-! ## Words of the specification -/

/-- The module's name is present and equal to a known vDSO alias. -/
def alias_name (m : link_map) : Prop :=
  ∃ a ∈ vdso_aliases, m.l_name = some a

/-- `n` bytes of `w`, least significant first. -/
def le_bytes : Nat → Nat → List Nat
  | 0, _ => []
  | n + 1, w => w % 256 :: le_bytes n (w / 256)

/-- The bytes of an auxiliary vector: each record is its tag then its value,
both as 64-bit little-endian words. -/
def encode_auxv : List (Nat × Nat) → List Nat
  | [] => []
  | r :: rest => le_bytes 8 r.1 ++ le_bytes 8 r.2 ++ encode_auxv rest

/-- A well-formed auxiliary vector is `entries` followed by the record
`(AT_NULL, x)`: the entries have non-null tags, and tags and values are 64-bit
words. -/
def auxv_ok (entries : List (Nat × Nat)) (x : Nat) : Prop :=
  (∀ r ∈ entries, r.1 ≠ AT_NULL ∧ r.1 < WORD ∧ r.2 < WORD) ∧ x < WORD

/-- The bytes that the reads of a script deliver, in order. -/
def script_bytes : List ReadResult → List Nat
  | [] => []
  | .data c :: rest => c ++ script_bytes rest
  | _ :: rest => script_bytes rest

/-- A script in which no read fails for good and every read that delivers bytes
delivers at least one (interrupted reads may occur anywhere). -/
def script_ok (src : List ReadResult) : Prop :=
  ∀ r ∈ src, r ≠ .error ∧ r ≠ .data []

/-- The header address left by decoding `entries` in order, starting from `e`:
the value of the last `AT_SYSINFO_EHDR` entry. -/
def last_ehdr : List (Nat × Nat) → Nat → Nat
  | [], e => e
  | r :: rest, e => last_ehdr rest (if r.1 = AT_SYSINFO_EHDR then r.2 else e)

/-- The page size left by decoding `entries` in order, starting from `p`: the
value of the last `AT_PAGESZ` entry, converted to `int`. -/
def last_pagesz : List (Nat × Nat) → Int → Int
  | [], p => p
  | r :: rest, p => last_pagesz rest (if r.1 = AT_PAGESZ then to_int r.2 else p)

/-! ## Auxiliary definitions of the proofs -/

/-- Record number `i` of the buffer seen as an array of `auxv_t`. -/
def rec_at (buf : List Nat) (i : Nat) : Nat × Nat :=
  (word_at buf (16 * i), word_at buf (16 * i + 8))

/-- The buffer `buf` after the bytes `B` have been read into it from offset `off`
on, as far as they fit. -/
def fill (buf : List Nat) (off : Nat) (B : List Nat) : List Nat :=
  (buf.take off ++ B ++ buf.drop (off + B.length)).take buffer_size

/-! ## Inputs of the examples -/

def c1_chain : List link_map :=
  [ { self := 4096, l_addr := 0, l_name := some "", l_ld := 100 },
    { self := 8192, l_addr := 700, l_name := some "linux-vdso.so", l_ld := 900 },
    { self := 12288, l_addr := 3000, l_name := some "linux-vdso.so.1", l_ld := 3500 },
    { self := 16384, l_addr := 5000, l_name := none, l_ld := 5500 } ]

/-- The module of `c1_chain` whose name is an alias. -/
def c1_vdso : link_map :=
  { self := 8192, l_addr := 700, l_name := some "linux-vdso.so", l_ld := 900 }

/-- The last module of `c1_chain`, which has no name. -/
def c1_other : link_map :=
  { self := 16384, l_addr := 5000, l_name := none, l_ld := 5500 }

def c1_env : Env :=
  { auxv := none, buffer0 := fun _ => 0, r_map := c1_chain,
    ehdr_at := fun _ => ⟨0, 0⟩, phdr_at := fun _ => ⟨0, 0⟩, vdso_dynamic0 := 0,
    maps := none, line0 := ⟨0, .zero⟩, addr_begin0 := 0, addr_end0 := 0, name0 := "" }

def c2_bad_entries : List (Nat × Nat) := [(AT_PAGESZ, 4096), (AT_PAGESZ, 2 ^ 32 + 8192)]

def c2_bad_env : Env :=
  { auxv := some [.data (encode_auxv (c2_bad_entries ++ [(AT_NULL, 0)]))],
    buffer0 := fun _ => 0, r_map := [],
    ehdr_at := fun _ => ⟨0, 0⟩, phdr_at := fun _ => ⟨0, 0⟩, vdso_dynamic0 := 0,
    maps := none, line0 := ⟨0, .zero⟩, addr_begin0 := 0, addr_end0 := 0, name0 := "" }

def c2_entries : List (Nat × Nat) :=
  [(AT_SYSINFO_EHDR, 140737488347136), (AT_PAGESZ, 16384), (AT_PAGESZ, 4096), (16, 3219913727)]

def c2_env : Env :=
  { auxv := some [.eintr, .data ((encode_auxv (c2_entries ++ [(AT_NULL, 0)])).take 21), .eintr,
                  .data ((encode_auxv (c2_entries ++ [(AT_NULL, 0)])).drop 21)],
    buffer0 := fun _ => 170, r_map := [],
    ehdr_at := fun _ => ⟨0, 0⟩, phdr_at := fun _ => ⟨0, 0⟩, vdso_dynamic0 := 0,
    maps := none, line0 := ⟨0, .zero⟩, addr_begin0 := 0, addr_end0 := 0, name0 := "" }

def c9_entries : List (Nat × Nat) := List.replicate 256 (AT_PAGESZ, 4096)

def c9_env : Env :=
  { auxv := some [.data (encode_auxv (c9_entries ++ [(AT_NULL, 0)]))],
    buffer0 := fun _ => 0, r_map := [],
    ehdr_at := fun _ => ⟨0, 0⟩, phdr_at := fun _ => ⟨0, 0⟩, vdso_dynamic0 := 0,
    maps := none, line0 := ⟨0, .zero⟩, addr_begin0 := 0, addr_end0 := 0, name0 := "" }

/-- A chain as glibc builds it: the main program, the vDSO under the name
`linux-vdso.so.1` (which is no alias), and libc. -/
def c3_chain : List link_map :=
  [ { self := 4096, l_addr := 0, l_name := some "", l_ld := 6295080 },
    { self := 8192, l_addr := 140737354129408, l_name := some "linux-vdso.so.1",
      l_ld := 140737354130272 },
    { self := 12288, l_addr := 140737347821568, l_name := some "/lib/libc.so.6",
      l_ld := 140737351736192 } ]

def c3_entries : List (Nat × Nat) := [(AT_PAGESZ, 4096), (16, 3219913727)]

def c3_env : Env :=
  { auxv := some [.data (encode_auxv (c3_entries ++ [(AT_NULL, 0)]))],
    buffer0 := fun _ => 0, r_map := c3_chain,
    ehdr_at := fun _ => ⟨0, 0⟩, phdr_at := fun _ => ⟨0, 0⟩, vdso_dynamic0 := 0,
    maps := some [ ⟨82, .three 4194304 4198400 "/bin/app"⟩,
                   ⟨49, .two 140737351852032 140737351868416⟩,
                   ⟨80, .three 140737354129408 140737354137600 "[vdso]"⟩,
                   ⟨81, .three 140737488216064 140737488351232 "[stack]"⟩ ],
    line0 := ⟨0, .zero⟩, addr_begin0 := 0, addr_end0 := 0, name0 := "" }

/-- The environment `c3_env` with a second `[vdso]` line put first. -/
def c3_two_env : Env :=
  { c3_env with
    maps := some [ ⟨80, .three 4194304 4198400 "[vdso]"⟩,
                   ⟨80, .three 140737354129408 140737354137600 "[vdso]"⟩ ] }

/-- The libc module of `c3_chain`. -/
def c3_libc : link_map :=
  { self := 12288, l_addr := 140737347821568, l_name := some "/lib/libc.so.6",
    l_ld := 140737351736192 }

/-- The vDSO module of `c3_chain`. -/
def c3_vdso : link_map :=
  { self := 8192, l_addr := 140737354129408, l_name := some "linux-vdso.so.1",
    l_ld := 140737354130272 }

/-- The environment `c3_env` with a maps listing that has no `[vdso]` line. -/
def c4_env : Env :=
  { c3_env with
    maps := some [ ⟨82, .three 4194304 4198400 "/bin/app"⟩,
                   ⟨49, .two 140737351852032 140737351868416⟩,
                   ⟨81, .three 140737488216064 140737488351232 "[stack]"⟩ ] }

/-- The state after the auxiliary vector of `c3_env` has been parsed during a
first query. -/
def c4_parsed : State :=
  { fresh with auxv_pagesz := 4096, parsed_auxv := 1, vdso_checked := true, auxv_opens := 1,
               auxv_reads := 2 }

/-- An environment in which the auxiliary vector gives the vDSO header address:
the image at 140737354129408 has a `PT_LOAD` header then a `PT_DYNAMIC` header
with `p_vaddr = 864`; the `[vdso]` line of the maps listing is made to contain
the `l_ld` of libc instead. -/
def c5_env : Env :=
  { auxv := some [.data (encode_auxv
      [(AT_SYSINFO_EHDR, 140737354129408), (AT_PAGESZ, 4096), (AT_NULL, 0)])],
    buffer0 := fun _ => 0, r_map := c3_chain,
    ehdr_at := fun a => if a = 140737354129408 then ⟨64, 2⟩ else ⟨0, 0⟩,
    phdr_at := fun a =>
      if a = 140737354129408 + 64 then ⟨1, 0⟩
      else if a = 140737354129408 + 64 + 56 then ⟨PT_DYNAMIC, 864⟩
      else ⟨0, 0⟩,
    vdso_dynamic0 := 0,
    maps := some [⟨80, .three 140737351000000 140737352000000 "[vdso]"⟩],
    line0 := ⟨0, .zero⟩, addr_begin0 := 0, addr_end0 := 0, name0 := "" }

/-- An environment whose second read of `/proc/self/auxv` fails with an error
other than `EINTR`, after 16 bytes have been delivered and one read has been
interrupted. -/
def c8_env : Env :=
  { c3_env with
    auxv := some [.data (encode_auxv [(AT_PAGESZ, 4096)]), .eintr, .error,
                  .data (encode_auxv [(AT_NULL, 0)])] }

/-- An environment whose auxiliary vector is one record with no `AT_NULL` after
it, while the bytes that `buffer` happens to hold from offset 16 on read as the
record `(AT_PAGESZ, 0x0101010101010101)` followed by zeros. -/
def c9_short_env : Env :=
  { c3_env with
    auxv := some [.data (encode_auxv [(AT_SYSINFO_EHDR, 140737354129408)])],
    buffer0 := fun i => if i = 16 then 6 else if 24 ≤ i ∧ i < 32 then 1 else 0 }

/-- An environment in which the vDSO image at 140737354129408 has a single program
header, of type `PT_LOAD`, and the local `vdso_dynamic` happens to hold 6295080 on
entry. -/
def c10_env : Env :=
  { c5_env with
    ehdr_at := fun a => if a = 140737354129408 then ⟨64, 1⟩ else ⟨0, 0⟩,
    phdr_at := fun a => if a = 140737354129408 + 64 then ⟨1, 0⟩ else ⟨0, 0⟩,
    vdso_dynamic0 := 6295080 }

/-! ## Further auxiliary definitions and inputs -/

/-- What a call of `parse_auxv_contents` leaves for its callers: the return code,
the stored page size and the stored vDSO header address. -/
def parse_view : Outcome (Int × State) → Outcome (Int × Int × Nat)
  | .ok (r, s) => .ok (r, s.auxv_pagesz, s.vdso_ehdr)
  | .fault => .fault
  | .timeout => .timeout

/-- The same for the decoding loop, whose completion makes the parser return 0. -/
def scan_view : Outcome State → Outcome (Int × Int × Nat)
  | .ok s => .ok (0, s.auxv_pagesz, s.vdso_ehdr)
  | .fault => .fault
  | .timeout => .timeout

/-- The value a call returns, without the state it leaves. -/
def returned : Outcome (Int × State) → Outcome Int
  | .ok (v, _) => .ok v
  | .fault => .fault
  | .timeout => .timeout

/-- The page size that `get_auxv_pagesize` makes of what the parser leaves. -/
def pagesize_of_view : Outcome (Int × Int × Nat) → Outcome Int
  | .ok (r, p, _) => .ok (if r = -1 then 0 else p)
  | .fault => .fault
  | .timeout => .timeout

/-- The three statics that `parse_auxv_contents` reads and writes. -/
def auxv_part (s : State) : Int × Int × Nat :=
  (s.parsed_auxv, s.auxv_pagesz, s.vdso_ehdr)

/-- The content of `line` when `fgets` reaches the end of the file: the last line
read, or what `line` held on entry when the file has no line. -/
def final_line : MapsLine → List MapsLine → MapsLine
  | l0, [] => l0
  | _, l :: rest => final_line l rest

/-- An environment whose maps listing has no `[vdso]` line and ends with an
anonymous mapping, a line without a label. -/
def c11_env : Env :=
  { c3_env with
    maps := some [ ⟨82, .three 4194304 4198400 "/bin/app"⟩,
                   ⟨81, .three 140737488216064 140737488351232 "[stack]"⟩,
                   ⟨49, .two 140737351852032 140737351868416⟩ ] }

/-- The environment `c3_env` when `/proc/self/maps` cannot be opened. -/
def c12_env : Env :=
  { c3_env with maps := none }

/-- The environment `c5_env` with a program header table of two `PT_DYNAMIC`
entries, the first with `p_vaddr = 864`, the second with `p_vaddr = 1000`. -/
def c15_two_env : Env :=
  { c5_env with
    phdr_at := fun a =>
      if a = 140737354129408 + 64 then ⟨PT_DYNAMIC, 864⟩
      else if a = 140737354129408 + 64 + 56 then ⟨PT_DYNAMIC, 1000⟩
      else ⟨0, 0⟩ }

/-- The state left by parsing the auxiliary vector of `c5_env`. -/
def c5_parsed : State :=
  { fresh with vdso_ehdr := 140737354129408, auxv_pagesz := 4096, parsed_auxv := 1,
               auxv_opens := 1, auxv_reads := 2 }

/-- Two orders of the same two entries, both of tag `AT_PAGESZ`. -/
def c13_entries : List (Nat × Nat) := [(AT_PAGESZ, 4096), (AT_PAGESZ, 8192)]

def c13_env : Env :=
  { c3_env with auxv := some [.data (encode_auxv (c13_entries ++ [(AT_NULL, 0)]))] }

def c13_reordered_env : Env :=
  { c3_env with auxv := some [.data (encode_auxv (c13_entries.reverse ++ [(AT_NULL, 0)]))] }

/-- An auxiliary vector with records after its first `AT_NULL` record. -/
def c19_env : Env :=
  { c3_env with
    auxv := some [.data (encode_auxv
      ([(AT_PAGESZ, 16384), (AT_SYSINFO_EHDR, 140737354129408), (AT_PAGESZ, 2 ^ 32 + 4096),
        (16, 3219913727)] ++ (AT_NULL, 0) :: [(AT_PAGESZ, 65536), (AT_NULL, 0)]))],
    buffer0 := fun _ => 255 }

/-- The reads of `c2_env`: 21 bytes, then the other 59, with interrupted reads. -/
def c18_src : List ReadResult :=
  [.eintr, .data ((encode_auxv (c2_entries ++ [(AT_NULL, 0)])).take 21), .eintr,
   .data ((encode_auxv (c2_entries ++ [(AT_NULL, 0)])).drop 21)]

/-- The environment `c2_env` when the same bytes arrive in one read. -/
def c18_env : Env :=
  { c2_env with auxv := some [.data (script_bytes c18_src)] }

/-- The environment `c3_env` with a second line put before the `[vdso]` line: the
line of a mapped file whose path has 4047 characters, 4121 characters with the
73 columns before the path and the newline. Its `scan` stands for what `sscanf`
makes of the part of the line that `fgets` stores. -/
def c17_env : Env :=
  { c3_env with
    maps := some [ ⟨82, .three 4194304 4198400 "/bin/app"⟩,
                   ⟨4121, .three 140737340000000 140737340100000 "/srv/data"⟩,
                   ⟨80, .three 140737354129408 140737354137600 "[vdso]"⟩,
                   ⟨81, .three 140737488216064 140737488351232 "[stack]"⟩ ] }

/-- The environment `c5_env` when `/proc/self/auxv` holds the single record
`(AT_SYSINFO_EHDR, 140737354129408)` with no `AT_NULL` record after it, and the
bytes that `buffer` happens to hold from offset 16 on read as the record
`(AT_PAGESZ, 0x0101010101010101)` followed by zeros. -/
def c20_short_env : Env :=
  { c5_env with
    auxv := some [.data (encode_auxv [(AT_SYSINFO_EHDR, 140737354129408)])],
    buffer0 := fun i => if i = 16 then 6 else if 24 ≤ i ∧ i < 32 then 1 else 0 }

/-- The environment `c20_short_env` when `buffer` holds zeros on entry: the same
content of `/proc/self/auxv`, other bytes in the array before the read. -/
def c20_env : Env :=
  { c20_short_env with buffer0 := fun _ => 0 }

/-- The environment `c3_env` when every byte of `buffer` is 255 on entry. -/
def c20_filled_env : Env :=
  { c3_env with buffer0 := fun _ => 255 }
/-! ## Lemmas -/

/-! ### The alias strategy -/

theorem name_is_iff (m : link_map) (a : String) :
    name_is m a = true ↔ m.l_name = some a := by
  unfold name_is
  cases m.l_name with
  | none => simp
  | some n => simp

theorem alias_match_iff (m : link_map) (l : List String) :
    alias_match m l = true ↔ ∃ a ∈ l, m.l_name = some a := by
  induction l with
  | nil => simp [alias_match]
  | cons a rest ih =>
    unfold alias_match
    cases h : name_is m a with
    | true =>
      simp only [if_true, true_iff]
      exact ⟨a, List.mem_cons_self _ _, (name_is_iff m a).1 h⟩
    | false =>
      have hne : ¬ m.l_name = some a := fun e => by
        rw [(name_is_iff m a).2 e] at h
        cases h
      simp only [Bool.false_eq_true, if_false, ih, List.mem_cons]
      constructor
      · rintro ⟨b, hb, hm⟩
        exact ⟨b, Or.inr hb, hm⟩
      · rintro ⟨b, hb, hm⟩
        rcases hb with rfl | hb
        · exact absurd hm hne
        · exact ⟨b, hb, hm⟩

theorem alias_match_iff_name (m : link_map) :
    alias_match m vdso_aliases = true ↔ alias_name m :=
  alias_match_iff m vdso_aliases

theorem aliases_unique (chain : List link_map) (M : link_map) (hM : M ∈ chain)
    (ha : alias_name M) (hu : ∀ m ∈ chain, m ≠ M → ¬ alias_name m) :
    get_vdso_from_aliases chain = M.self := by
  induction chain with
  | nil => cases hM
  | cons m rest ih =>
    unfold get_vdso_from_aliases
    by_cases hm : m = M
    · subst hm
      simp [(alias_match_iff_name m).2 ha]
    · have hno : ¬ alias_match m vdso_aliases = true := fun h =>
        hu m (List.mem_cons_self _ _) hm ((alias_match_iff_name m).1 h)
      simp only [hno, if_false]
      apply ih
      · rcases List.mem_cons.1 hM with h | h
        · exact absurd h.symm hm
        · exact h
      · intro x hx
        exact hu x (List.mem_cons_of_mem _ hx)

theorem self_eq_iff (chain : List link_map) (hc : chain_ok chain) (m M : link_map)
    (hm : m ∈ chain) (hM : M ∈ chain) : m.self = M.self ↔ m = M := by
  constructor
  · intro h
    exact List.inj_on_of_nodup_map hc.2 hm hM h
  · intro h
    rw [h]

theorem is_vdso_checked (fuel : Nat) (env : Env) (s : State) (map : Nat)
    (hs : s.vdso_checked = true) (hmap : map ≠ 0) :
    is_vdso fuel env s map = .ok (map == s.vdso, s) := by
  simp [is_vdso, hs, hmap]

/-! ### Bytes, words and records -/

theorem le_bytes_length (n w : Nat) : (le_bytes n w).length = n := by
  induction n generalizing w with
  | zero => rfl
  | succ n ih => simp [le_bytes, ih]

theorem le_value_le_bytes (n w : Nat) : le_value (le_bytes n w) = w % 256 ^ n := by
  induction n generalizing w with
  | zero => simp [le_bytes, le_value, Nat.mod_one]
  | succ n ih =>
    simp only [le_bytes, le_value, ih, Nat.mod_mod]
    rw [pow_succ', Nat.mod_mul]

theorem word_at_take (L : List Nat) (n off : Nat) (h : off + 8 ≤ n) :
    word_at (L.take n) off = word_at L off := by
  unfold word_at
  rw [List.drop_take, List.take_take]
  congr 2
  omega

theorem word_at_append_right (P Y : List Nat) (off : Nat) :
    word_at (P ++ Y) (P.length + off) = word_at Y off := by
  unfold word_at
  rw [List.drop_append]

theorem word_at_zero_append (P Y : List Nat) (h : P.length = 8) :
    word_at (P ++ Y) 0 = le_value P := by
  unfold word_at
  simp [List.take_append_eq_append_take, h]

theorem encode_auxv_length (v : List (Nat × Nat)) : (encode_auxv v).length = 16 * v.length := by
  induction v with
  | nil => rfl
  | cons r rest ih => simp [encode_auxv, le_bytes_length, ih]; omega

theorem word_lt (w : Nat) (h : w < WORD) : w % 256 ^ 8 = w :=
  Nat.mod_eq_of_lt (by simpa [WORD] using h)

theorem rec_at_encode (v : List (Nat × Nat)) (tail : List Nat)
    (hw : ∀ r ∈ v, r.1 < WORD ∧ r.2 < WORD) :
    ∀ (i : Nat) (r : Nat × Nat), v[i]? = some r → rec_at (encode_auxv v ++ tail) i = r := by
  induction v with
  | nil => intro i r h; simp at h
  | cons r0 rest ih =>
    intro i r h
    have h0 := hw r0 (List.mem_cons_self _ _)
    cases i with
    | zero =>
      simp at h
      subst h
      unfold rec_at
      simp only [encode_auxv, List.append_assoc, Nat.mul_zero, Nat.zero_add]
      rw [word_at_zero_append _ _ (le_bytes_length 8 _), le_value_le_bytes, word_lt _ h0.1]
      have h8 := word_at_append_right (le_bytes 8 r0.1)
        (le_bytes 8 r0.2 ++ (encode_auxv rest ++ tail)) 0
      rw [le_bytes_length] at h8
      rw [h8, word_at_zero_append _ _ (le_bytes_length 8 _), le_value_le_bytes, word_lt _ h0.2]
    | succ j =>
      simp at h
      have hrec := ih (fun x hx => hw x (List.mem_cons_of_mem _ hx)) j r h
      unfold rec_at at hrec ⊢
      have hlen : (le_bytes 8 r0.1 ++ le_bytes 8 r0.2).length = 16 := by
        simp [le_bytes_length]
      have e1 := word_at_append_right (le_bytes 8 r0.1 ++ le_bytes 8 r0.2)
        (encode_auxv rest ++ tail) (16 * j)
      have e2 := word_at_append_right (le_bytes 8 r0.1 ++ le_bytes 8 r0.2)
        (encode_auxv rest ++ tail) (16 * j + 8)
      rw [hlen] at e1 e2
      simp only [encode_auxv, List.append_assoc] at e1 e2 ⊢
      have a1 : 16 * (j + 1) = 16 + 16 * j := by ring
      have a2 : 16 * (j + 1) + 8 = 16 + (16 * j + 8) := by ring
      rw [a1, e1, ← a1, a2, e2]
      exact hrec

theorem scan_auxv_entries (buf : List Nat) :
    ∀ (todo : List (Nat × Nat)) (n a : Nat) (s : State),
      (∀ i r, todo[i]? = some r → rec_at buf (a + i) = r) →
      (∀ r ∈ todo, r.1 ≠ AT_NULL) →
      todo.length < n →
      word_at buf (16 * (a + todo.length)) = AT_NULL →
      scan_auxv buf n a s =
        .ok { s with vdso_ehdr := last_ehdr todo s.vdso_ehdr,
                     auxv_pagesz := last_pagesz todo s.auxv_pagesz } := by
  intro todo
  induction todo with
  | nil =>
    intro n a s _ _ hn hz
    cases n with
    | zero => simp at hn
    | succ n =>
      simp only [List.length_nil, Nat.add_zero] at hz
      simp [scan_auxv, hz, last_ehdr, last_pagesz]
  | cons r rest ih =>
    intro n a s hrec hnz hn hz
    cases n with
    | zero => simp at hn
    | succ n =>
      have h0 := hrec 0 r (by simp)
      unfold rec_at at h0
      simp only [Nat.add_zero, Prod.ext_iff] at h0
      have hr := hnz r (List.mem_cons_self _ _)
      have hrest := ih n (a + 1)
      have hrec1 : ∀ i x, rest[i]? = some x → rec_at buf (a + 1 + i) = x := by
        intro i x hx
        have := hrec (i + 1) x (by simpa using hx)
        rw [show a + 1 + i = a + (i + 1) by ring]
        exact this
      have hnz1 : ∀ x ∈ rest, x.1 ≠ AT_NULL := fun x hx => hnz x (List.mem_cons_of_mem _ hx)
      have hn1 : rest.length < n := by simp at hn; omega
      have hz1 : word_at buf (16 * (a + 1 + rest.length)) = AT_NULL := by
        rw [show a + 1 + rest.length = a + (r :: rest).length by simp; ring]
        exact hz
      have hne : AT_SYSINFO_EHDR ≠ AT_PAGESZ := by decide
      unfold scan_auxv
      simp only [h0.1, h0.2, hr, if_false]
      by_cases he : r.1 = AT_SYSINFO_EHDR
      · have hp : ¬ r.1 = AT_PAGESZ := by rw [he]; decide
        simp only [he, if_true]
        rw [hrest _ hrec1 hnz1 hn1 hz1]
        simp [last_ehdr, last_pagesz, he, hp, hne, hne.symm]
      · simp only [he, if_false]
        by_cases hp : r.1 = AT_PAGESZ
        · simp only [hp, if_true]
          rw [hrest _ hrec1 hnz1 hn1 hz1]
          simp [last_ehdr, last_pagesz, he, hp, hne, hne.symm]
        · simp only [hp, if_false]
          rw [hrest _ hrec1 hnz1 hn1 hz1]
          simp [last_ehdr, last_pagesz, he, hp, hne, hne.symm]

/-! ### The read loop -/

theorem store_nil (buf : List Nat) (off : Nat) : store buf off [] = buf := by
  simp [store]

theorem store_length (buf : List Nat) (off : Nat) (c : List Nat)
    (h : off + c.length ≤ buf.length) : (store buf off c).length = buf.length := by
  simp [store]
  omega

theorem fill_nil (buf : List Nat) (off : Nat) (hb : buf.length = buffer_size) :
    fill buf off [] = buf := by
  simp [fill, ← hb]

theorem fill_store (buf : List Nat) (off : Nat) (c B : List Nat)
    (h : off + c.length ≤ buf.length) :
    fill (store buf off c) (off + c.length) B = fill buf off (c ++ B) := by
  unfold fill store
  have hX : (List.take off buf ++ c).length = off + c.length := by
    simp [List.length_take]
    omega
  have h1 : (List.take off buf ++ c ++ List.drop (off + c.length) buf).take (off + c.length)
      = List.take off buf ++ c := List.take_left' hX
  have h2 : (List.take off buf ++ c ++ List.drop (off + c.length) buf).drop
      (off + c.length + B.length) = List.drop (off + (c ++ B).length) buf := by
    rw [← hX, List.drop_append, List.drop_drop, hX]
    congr 1
    simp
    omega
  rw [h1, h2]
  simp [List.append_assoc]

theorem fill_full (buf : List Nat) (B : List Nat) (hb : buf.length = buffer_size) :
    fill buf buffer_size B = buf := by
  unfold fill
  rw [List.append_assoc, List.take_append_eq_append_take]
  simp [← hb]

theorem read_loop_full (f : Nat) (c : List Nat) (rest : List ReadResult) (buf : List Nat)
    (n : Nat) (hc : c ≠ []) :
    read_loop (f + 1) { src := .data c :: rest, buffer := buf, offset := buffer_size, reads := n }
      = some (.done, { src := .data c :: rest, buffer := store buf buffer_size [],
                       offset := buffer_size, reads := n + 1 }) := by
  have hlen : ¬ c.length ≤ 0 := by
    intro h
    exact hc (List.length_eq_zero.1 (Nat.le_zero.1 h))
  simp [read_loop, gotcha_read, hlen]

theorem fill_split (buf : List Nat) (off : Nat) (c B : List Nat)
    (hb : buf.length = buffer_size) (ho : off ≤ buffer_size)
    (hc : buffer_size - off < c.length) :
    fill buf off (c ++ B) = store buf off (c.take (buffer_size - off)) := by
  unfold fill store
  have hX : (List.take off buf).length = off := by
    simp [List.length_take]
    omega
  have hd : List.drop (off + (List.take (buffer_size - off) c).length) buf = [] := by
    apply List.drop_eq_nil_of_le
    simp [List.length_take]
    omega
  rw [hd, List.append_nil, List.append_assoc, List.append_assoc,
    List.take_append_eq_append_take, hX]
  have ht : List.take buffer_size (List.take off buf) = List.take off buf := by
    apply List.take_of_length_le
    omega
  rw [ht, List.take_append_eq_append_take]
  have hz : buffer_size - off - c.length = 0 := by omega
  simp [hz]

theorem read_loop_ok :
    ∀ (src : List ReadResult) (fuel : Nat) (buf : List Nat) (off n : Nat),
      script_ok src → src.length + 2 ≤ fuel → off ≤ buffer_size → buf.length = buffer_size →
      ∃ r1, read_loop fuel { src := src, buffer := buf, offset := off, reads := n }
              = some (.done, r1) ∧
            r1.buffer = fill buf off (script_bytes src) ∧ n < r1.reads := by
  intro src
  induction src with
  | nil =>
    intro fuel buf off n _ hf _ hb
    obtain ⟨f, rfl⟩ : ∃ f, fuel = f + 1 := ⟨fuel - 1, by omega⟩
    refine ⟨_, by simp [read_loop, gotcha_read]; rfl, ?_, ?_⟩
    · simp [store_nil, script_bytes, fill_nil _ _ hb]
    · simp
  | cons r rest ih =>
    intro fuel buf off n hok hf ho hb
    obtain ⟨f, rfl⟩ : ∃ f, fuel = f + 1 := ⟨fuel - 1, by omega⟩
    have hrest : script_ok rest := fun x hx => hok x (List.mem_cons_of_mem _ hx)
    have hr := hok r (List.mem_cons_self _ _)
    simp only [List.length_cons] at hf
    cases r with
    | eintr =>
      obtain ⟨r1, h1, h2, h3⟩ := ih f buf off (n + 1) hrest (by omega) ho hb
      refine ⟨r1, ?_, ?_, by omega⟩
      · simpa [read_loop, gotcha_read] using h1
      · simpa [script_bytes] using h2
    | error => exact absurd rfl hr.1
    | data c =>
      have hc : c ≠ [] := fun e => hr.2 (by rw [e])
      have hcl : c.length ≠ 0 := fun e => hc (List.length_eq_zero.1 e)
      by_cases hfit : c.length ≤ buffer_size - off
      · have hoff : off ≠ buffer_size := by omega
        obtain ⟨r1, h1, h2, h3⟩ := ih f (store buf off c) (off + c.length) (n + 1) hrest
          (by omega) (by omega) (by rw [store_length _ _ _ (by omega)]; exact hb)
        refine ⟨r1, ?_, ?_, by omega⟩
        · simpa [read_loop, gotcha_read, hfit, hcl, hoff] using h1
        · rw [h2, fill_store _ _ _ _ (by omega)]
          simp [script_bytes]
      · have hlt : buffer_size - off < c.length := by omega
        have hdrop : c.drop (buffer_size - off) ≠ [] := by
          intro e
          have := congrArg List.length e
          simp at this
          omega
        by_cases hoff : off = buffer_size
        · subst hoff
          refine ⟨_, read_loop_full f c rest buf n hc, ?_, by simp⟩
          simp [store_nil, fill_full _ _ hb]
        · obtain ⟨g, rfl⟩ : ∃ g, f = g + 1 := ⟨f - 1, by omega⟩
          have htl : (c.take (buffer_size - off)).length = buffer_size - off := by
            simp [List.length_take]
            omega
          have hstep : read_loop (g + 1 + 1)
              { src := .data c :: rest, buffer := buf, offset := off, reads := n }
              = read_loop (g + 1)
                { src := .data (c.drop (buffer_size - off)) :: rest,
                  buffer := store buf off (c.take (buffer_size - off)),
                  offset := buffer_size, reads := n + 1 } := by
            have hne : ¬ buffer_size - off = 0 := by omega
            have hmin : min (buffer_size - off) c.length = buffer_size - off := by omega
            have hsum : off + (buffer_size - off) = buffer_size := by omega
            rw [read_loop]
            simp [gotcha_read, hfit, hoff, hne, hmin, hsum]
          refine ⟨_, by rw [hstep]; exact read_loop_full g _ rest _ (n + 1) hdrop, ?_, by simp; omega⟩
          simp [store_nil, script_bytes, fill_split buf off c _ hb ho hlt]

/-! ### Parsing a well-formed vector -/

theorem buffer_init_length (env : Env) : (buffer_init env).length = buffer_size := by
  simp [buffer_init]

theorem rec_at_take (L : List Nat) (i : Nat) (h : 16 * i + 16 ≤ buffer_size) :
    rec_at (L.take buffer_size) i = rec_at L i := by
  unfold rec_at
  rw [word_at_take _ _ _ (by omega), word_at_take _ _ _ (by omega)]

theorem rec_at_fill (env : Env) (v : List (Nat × Nat))
    (hw : ∀ r ∈ v, r.1 < WORD ∧ r.2 < WORD) :
    ∀ (i : Nat) (r : Nat × Nat), i < 256 → v[i]? = some r →
      rec_at (fill (buffer_init env) 0 (encode_auxv v)) i = r := by
  intro i r hi h
  unfold fill
  rw [rec_at_take _ _ (by simp only [buffer_size]; omega)]
  simp only [List.take_zero, List.nil_append]
  exact rec_at_encode v _ hw i r h

theorem scan_wellformed (env : Env) (entries : List (Nat × Nat)) (x : Nat) (s : State)
    (hv : auxv_ok entries x) (hfit : entries.length < 256) :
    scan_auxv (fill (buffer_init env) 0 (encode_auxv (entries ++ [(AT_NULL, x)])))
        (buffer_size / 16) 0 s
      = .ok { s with vdso_ehdr := last_ehdr entries s.vdso_ehdr,
                     auxv_pagesz := last_pagesz entries s.auxv_pagesz } := by
  have hw : ∀ r ∈ entries ++ [(AT_NULL, x)], r.1 < WORD ∧ r.2 < WORD := by
    intro r hr
    rcases List.mem_append.1 hr with h | h
    · exact (hv.1 r h).2
    · simp at h
      subst h
      exact ⟨by simp [AT_NULL, WORD], hv.2⟩
  have hrec := rec_at_fill env _ hw
  apply scan_auxv_entries
  · intro i r hi
    rw [Nat.zero_add]
    have hlt : i < entries.length := by
      rcases Nat.lt_or_ge i entries.length with h1 | h1
      · exact h1
      · rw [List.getElem?_eq_none h1] at hi
        cases hi
    apply hrec i r (by omega)
    rw [List.getElem?_append_left hlt]
    exact hi
  · intro r hr
    exact (hv.1 r hr).1
  · simp only [buffer_size]
    omega
  · have := hrec entries.length (AT_NULL, x) hfit (by simp)
    unfold rec_at at this
    rw [Nat.zero_add]
    exact (Prod.ext_iff.1 this).1

theorem parse_wellformed (env : Env) (s : State) (src : List ReadResult)
    (entries : List (Nat × Nat)) (x : Nat)
    (hsrc : env.auxv = some src) (hok : script_ok src)
    (hbytes : script_bytes src = encode_auxv (entries ++ [(AT_NULL, x)]))
    (hv : auxv_ok entries x) (hfit : entries.length < 256) (hs : s.parsed_auxv = 0) :
    ∃ k, 0 < k ∧
      parse_auxv_contents env s =
        .ok (0, { s with vdso_ehdr := last_ehdr entries s.vdso_ehdr,
                         auxv_pagesz := last_pagesz entries s.auxv_pagesz,
                         parsed_auxv := 1,
                         auxv_opens := s.auxv_opens + 1,
                         auxv_reads := s.auxv_reads + k }) := by
  obtain ⟨r1, h1, h2, h3⟩ := read_loop_ok src (src.length + 2) (buffer_init env) 0 0 hok
    (le_refl _) (Nat.zero_le _) (buffer_init_length env)
  refine ⟨r1.reads, h3, ?_⟩
  unfold parse_auxv_contents
  simp only [hs, ne_eq, not_true_eq_false, if_false, hsrc]
  rw [parse_loop, h1]
  simp only [h2, hbytes, scan_wellformed env entries x _ hv hfit]
  simp

theorem last_pagesz_none (entries : List (Nat × Nat)) (p : Int)
    (h : ∀ r ∈ entries, r.1 ≠ AT_PAGESZ) : last_pagesz entries p = p := by
  induction entries generalizing p with
  | nil => rfl
  | cons r rest ih =>
    have hr := h r (List.mem_cons_self _ _)
    simp only [last_pagesz, hr, if_false]
    exact ih p (fun x hx => h x (List.mem_cons_of_mem _ hx))

theorem last_pagesz_last (pre post : List (Nat × Nat)) (V : Nat) (p : Int)
    (h : ∀ r ∈ post, r.1 ≠ AT_PAGESZ) :
    last_pagesz (pre ++ (AT_PAGESZ, V) :: post) p = to_int V := by
  induction pre generalizing p with
  | nil => simp [last_pagesz, last_pagesz_none post _ h]
  | cons r rest ih =>
    show last_pagesz (rest ++ (AT_PAGESZ, V) :: post) _ = to_int V
    exact ih _

theorem to_int_small (V : Nat) (h : V < 2 ^ 31) : to_int V = (V : Int) := by
  have h1 : V % 2 ^ 32 = V := Nat.mod_eq_of_lt (by omega)
  unfold to_int
  rw [h1, if_pos h]

theorem pagesize_wellformed (env : Env) (src : List ReadResult)
    (entries : List (Nat × Nat)) (x : Nat)
    (hsrc : env.auxv = some src) (hok : script_ok src)
    (hbytes : script_bytes src = encode_auxv (entries ++ [(AT_NULL, x)]))
    (hv : auxv_ok entries x) (hfit : entries.length < 256) :
    ∃ s, get_auxv_pagesize env fresh = .ok (last_pagesz entries 0, s) := by
  obtain ⟨k, _, hp⟩ := parse_wellformed env fresh src entries x hsrc hok hbytes hv hfit rfl
  unfold get_auxv_pagesize
  rw [hp]
  refine ⟨{ fresh with vdso_ehdr := last_ehdr entries 0, auxv_pagesz := last_pagesz entries 0,
                       parsed_auxv := 1, auxv_opens := 1, auxv_reads := k }, ?_⟩
  simp [fresh]

/-! ### Parsing a vector that has no `AT_NULL` in the buffer -/

theorem scan_auxv_overrun (buf : List Nat) :
    ∀ (n a : Nat) (s : State),
      (∀ i, a ≤ i → i < a + n → word_at buf (16 * i) ≠ AT_NULL) →
      scan_auxv buf n a s = .fault := by
  intro n
  induction n with
  | zero => intro a s _; rfl
  | succ n ih =>
    intro a s h
    have h0 := h a (le_refl _) (by omega)
    have hrest : ∀ s1, scan_auxv buf n (a + 1) s1 = .fault := fun s1 =>
      ih (a + 1) s1 (fun i h1 h2 => h i (by omega) (by omega))
    unfold scan_auxv
    simp only [h0, if_false, hrest]
    simp

/-- An auxiliary vector whose first 256 records have non-null tags: the decoding
loop finds no `AT_NULL` in the buffer and reads the tag of a record that lies
past the end of `buffer`. -/
theorem parse_overlong_fault (env : Env) (src : List ReadResult) (v : List (Nat × Nat))
    (hsrc : env.auxv = some src) (hok : script_ok src)
    (hbytes : script_bytes src = encode_auxv v)
    (hw : ∀ r ∈ v, r.1 < WORD ∧ r.2 < WORD)
    (hnz : ∀ i r, i < 256 → v[i]? = some r → r.1 ≠ AT_NULL) (hlen : 256 ≤ v.length)
    (s : State) (hs : s.parsed_auxv = 0) :
    parse_auxv_contents env s = .fault := by
  obtain ⟨r1, h1, h2, _⟩ := read_loop_ok src (src.length + 2) (buffer_init env) 0 0 hok
    (le_refl _) (Nat.zero_le _) (buffer_init_length env)
  unfold parse_auxv_contents
  simp only [hs, ne_eq, not_true_eq_false, if_false, hsrc]
  rw [parse_loop, h1]
  have hscan : ∀ s : State, scan_auxv r1.buffer (buffer_size / 16) 0 s = .fault := by
    intro s
    apply scan_auxv_overrun
    intro i _ hi
    have hi256 : i < 256 := by
      simp only [buffer_size] at hi
      omega
    have hget : v[i]? = some (v.get ⟨i, by omega⟩) := by
      simp [List.getElem?_eq_getElem (show i < v.length by omega)]
    have hrec := rec_at_fill env v hw i _ hi256 hget
    rw [h2, hbytes]
    have e : word_at (fill (buffer_init env) 0 (encode_auxv v)) (16 * i)
        = (v.get ⟨i, by omega⟩).1 := congrArg Prod.fst hrec
    rw [e]
    exact hnz i _ hi256 hget
  simp only [hscan]

/-! ### What the parser leaves unchanged -/

theorem scan_auxv_frame (buf : List Nat) :
    ∀ (n a : Nat) (s s1 : State), scan_auxv buf n a s = .ok s1 →
      s1 = { s with vdso_ehdr := s1.vdso_ehdr, auxv_pagesz := s1.auxv_pagesz } := by
  intro n
  induction n with
  | zero => intro a s s1 h; simp [scan_auxv] at h
  | succ n ih =>
    intro a s s1 h
    unfold scan_auxv at h
    simp only at h
    split at h
    · cases h
      rfl
    · split at h
      · have := ih _ _ _ h
        rw [this]
      · split at h
        · have := ih _ _ _ h
          rw [this]
        · exact ih _ _ _ h

theorem parse_loop_frame :
    ∀ (n fuel : Nat) (r : Reader) (s : State) (ret : Int) (s1 : State),
      parse_loop n fuel r s = .ok (ret, s1) →
      (s1.vdso_checked = s.vdso_checked ∧ s1.vdso = s.vdso ∧ s1.auxv_opens = s.auxv_opens ∧
        s1.maps_opens = s.maps_opens ∧ s1.maps_reads = s.maps_reads) ∧
      ((ret = -1 ∧ s1.parsed_auxv = -1) ∨ (ret = 0 ∧ s1.parsed_auxv = s.parsed_auxv)) := by
  intro n
  induction n with
  | zero => intro fuel r s ret s1 h; simp [parse_loop] at h
  | succ n ih =>
    intro fuel r s ret s1 h
    unfold parse_loop at h
    cases hrl : read_loop fuel r with
    | none => simp [hrl] at h
    | some p =>
      obtain ⟨exit, r1⟩ := p
      cases hsc : scan_auxv r1.buffer (buffer_size / 16) 0 s with
      | fault =>
        cases exit <;> simp [hrl, hsc] at h
        obtain ⟨rfl, rfl⟩ := h
        simp
      | timeout =>
        cases exit <;> simp [hrl, hsc] at h
        obtain ⟨rfl, rfl⟩ := h
        simp
      | ok s2 =>
        have hf := scan_auxv_frame _ _ _ _ _ hsc
        cases exit with
        | failed =>
          simp [hrl] at h
          obtain ⟨rfl, rfl⟩ := h
          simp
        | done =>
          simp [hrl, hsc] at h
          obtain ⟨rfl, rfl⟩ := h
          rw [hf]
          simp
        | full =>
          simp [hrl, hsc] at h
          have := ih _ _ _ _ _ h
          rw [hf] at this
          simpa using this

theorem parse_auxv_frame (env : Env) (s : State) (ret : Int) (s1 : State)
    (h : parse_auxv_contents env s = .ok (ret, s1)) :
    s1.vdso_checked = s.vdso_checked ∧ s1.vdso = s.vdso ∧
    s1.maps_opens = s.maps_opens ∧ s1.maps_reads = s.maps_reads ∧
    (s.parsed_auxv ≠ 0 → s1 = s) ∧
    (s.parsed_auxv = 0 → s1.auxv_opens = s.auxv_opens + 1 ∧
      ((ret = -1 ∧ s1.parsed_auxv = -1) ∨ (ret = 0 ∧ s1.parsed_auxv = 1))) := by
  unfold parse_auxv_contents at h
  by_cases hp : s.parsed_auxv = 0
  · simp only [hp, ne_eq, not_true_eq_false, if_false] at h
    cases ha : env.auxv with
    | none =>
      simp [ha] at h
      obtain ⟨rfl, rfl⟩ := h
      simp [hp]
    | some src =>
      simp only [ha] at h
      have := parse_loop_frame _ _ _ _ _ _ h
      simp at this
      simp [hp, this]
  · simp only [ne_eq, hp, not_false_eq_true, if_true] at h
    simp at h
    obtain ⟨_, rfl⟩ := h
    simp [hp]

/-! ### The auxv and maps strategies -/

theorem get_vdso_from_auxv_frame (env : Env) (s : State) (res : Nat) (s1 : State)
    (h : get_vdso_from_auxv env s = .ok (res, s1)) :
    s1.vdso_checked = s.vdso_checked ∧ s1.vdso = s.vdso ∧
    s1.maps_opens = s.maps_opens ∧ s1.maps_reads = s.maps_reads ∧
    (s.parsed_auxv = 0 → s1.auxv_opens = s.auxv_opens + 1) := by
  unfold get_vdso_from_auxv at h
  cases hp : parse_auxv_contents env s with
  | fault => simp [hp] at h
  | timeout => simp [hp] at h
  | ok p =>
    obtain ⟨ret, s2⟩ := p
    have hf := parse_auxv_frame env s ret s2 hp
    have hs : s1 = s2 := by
      simp only [hp] at h
      split at h
      · cases h; rfl
      · cases h; rfl
    subst hs
    exact ⟨hf.1, hf.2.1, hf.2.2.1, hf.2.2.2.1, fun h0 => (hf.2.2.2.2.2 h0).1⟩

theorem get_vdso_from_maps_frame (fuel : Nat) (env : Env) (s : State) (res : Nat) (s1 : State)
    (h : get_vdso_from_maps fuel env s = .ok (res, s1)) :
    s1 = { s with maps_opens := s.maps_opens + 1, maps_reads := s1.maps_reads } := by
  unfold get_vdso_from_maps at h
  cases hm : env.maps with
  | none => simp [hm] at h
  | some lines =>
    simp only [hm] at h
    split at h
    · cases h
    · cases h
    · split at h
      · cases h; rfl
      · cases h; rfl

/-- Whether `fgets` stores more bytes than `line` has, in terms of the length of the line. -/
theorem fgets_overflow_iff (c : Nat) : line_size < min c (4097 - 1) + 1 ↔ line_size ≤ c := by
  unfold line_size
  omega

/-- One turn of the loop on a line of fewer than 4096 characters. -/
theorem maps_loop_line (fuel : Nat) (l : MapsLine) (rest : List MapsLine) (eof : Bool)
    (line : MapsLine) (ab ae : Nat) (name : String) (n : Nat) (hl : l.chars < line_size) :
    maps_loop (fuel + 1) { rest := l :: rest, eof := eof, line := line, addr_begin := ab,
                           addr_end := ae, name := name, reads := n } =
      match l.scan with
      | .zero => maps_loop fuel { rest := rest, eof := eof, line := l, addr_begin := ab,
                                  addr_end := ae, name := name, reads := n + 1 }
      | .one b => maps_loop fuel { rest := rest, eof := eof, line := l, addr_begin := b,
                                   addr_end := ae, name := name, reads := n + 1 }
      | .two b e => maps_loop fuel { rest := rest, eof := eof, line := l, addr_begin := b,
                                     addr_end := e, name := name, reads := n + 1 }
      | .three b e x =>
        if x = "[vdso]" then
          .ok (true, { rest := rest, eof := eof, line := l, addr_begin := b, addr_end := e,
                       name := x, reads := n + 1 })
        else if eof then
          .ok (false, { rest := rest, eof := eof, line := l, addr_begin := b, addr_end := e,
                        name := x, reads := n + 1 })
        else maps_loop fuel { rest := rest, eof := eof, line := l, addr_begin := b,
                              addr_end := e, name := x, reads := n + 1 } := by
  have h1 : ¬ line_size < min l.chars (4097 - 1) + 1 := by
    rw [fgets_overflow_iff]; omega
  have h2 : ¬ line_size ≤ l.chars := by omega
  obtain ⟨c, sc⟩ := l
  cases sc <;> simp [maps_loop, fgets, sscanf, h1, h2]

/-- One turn of the loop on a line of 4096 or more characters. -/
theorem maps_loop_long (fuel : Nat) (l : MapsLine) (rest : List MapsLine) (eof : Bool)
    (line : MapsLine) (ab ae : Nat) (name : String) (n : Nat) (hl : line_size ≤ l.chars) :
    maps_loop (fuel + 1) { rest := l :: rest, eof := eof, line := line, addr_begin := ab,
                           addr_end := ae, name := name, reads := n } = .fault := by
  have h1 : line_size < min l.chars (4097 - 1) + 1 := (fgets_overflow_iff _).2 hl
  simp [maps_loop, fgets, h1]

theorem maps_loop_found (c b e : Nat) (post : List MapsLine) (hc : c < line_size) :
    ∀ (pre : List MapsLine) (fuel : Nat) (eof : Bool) (line : MapsLine) (ab ae : Nat)
      (name : String) (n : Nat),
      (∀ l ∈ pre, l.chars < line_size) →
      (∀ l ∈ pre, ∀ b1 e1, l.scan ≠ .three b1 e1 "[vdso]") → pre.length < fuel → eof = false →
      ∃ r1, maps_loop fuel
              { rest := pre ++ ⟨c, .three b e "[vdso]"⟩ :: post, eof := eof, line := line,
                addr_begin := ab, addr_end := ae, name := name, reads := n }
            = .ok (true, r1) ∧
          r1.addr_begin = b ∧ r1.addr_end = e ∧ r1.reads = n + pre.length + 1 := by
  intro pre
  induction pre with
  | nil =>
    intro fuel eof line ab ae name n _ _ hf _
    obtain ⟨f, rfl⟩ : ∃ f, fuel = f + 1 := ⟨fuel - 1, by simp at hf; omega⟩
    rw [List.nil_append, maps_loop_line f _ _ _ _ _ _ _ _ hc]
    exact ⟨{ rest := post, eof := eof, line := ⟨c, .three b e "[vdso]"⟩, addr_begin := b,
             addr_end := e, name := "[vdso]", reads := n + 1 }, by simp, rfl, rfl, by simp⟩
  | cons l pre ih =>
    intro fuel eof line ab ae name n hfit hpre hf heof
    obtain ⟨f, rfl⟩ : ∃ f, fuel = f + 1 := ⟨fuel - 1, by simp at hf; omega⟩
    have hf1 : pre.length < f := by simp at hf; omega
    have hfit1 : ∀ x ∈ pre, x.chars < line_size :=
      fun x hx => hfit x (List.mem_cons_of_mem _ hx)
    have hpre1 : ∀ x ∈ pre, ∀ b1 e1, x.scan ≠ .three b1 e1 "[vdso]" :=
      fun x hx => hpre x (List.mem_cons_of_mem _ hx)
    have hl := hpre l (List.mem_cons_self _ _)
    rw [List.cons_append, maps_loop_line f _ _ _ _ _ _ _ _ (hfit l (List.mem_cons_self _ _))]
    subst heof
    cases hs : l.scan with
    | zero =>
      obtain ⟨r1, h1, h2, h3, h4⟩ := ih f false l ab ae name (n + 1) hfit1 hpre1 hf1 rfl
      exact ⟨r1, h1, h2, h3, by rw [h4]; simp; omega⟩
    | one b1 =>
      obtain ⟨r1, h1, h2, h3, h4⟩ := ih f false l b1 ae name (n + 1) hfit1 hpre1 hf1 rfl
      exact ⟨r1, h1, h2, h3, by rw [h4]; simp; omega⟩
    | two b1 e1 =>
      obtain ⟨r1, h1, h2, h3, h4⟩ := ih f false l b1 e1 name (n + 1) hfit1 hpre1 hf1 rfl
      exact ⟨r1, h1, h2, h3, by rw [h4]; simp; omega⟩
    | three b1 e1 nm =>
      have hnm : nm ≠ "[vdso]" := fun e0 => hl b1 e1 (by rw [hs, e0])
      obtain ⟨r1, h1, h2, h3, h4⟩ := ih f false l b1 e1 nm (n + 1) hfit1 hpre1 hf1 rfl
      exact ⟨r1, by simpa [hnm] using h1, h2, h3, by rw [h4]; simp; omega⟩

/-- A line of 4096 or more characters, met before a `[vdso]` line, ends the loop in
the fault of `fgets`. -/
theorem maps_loop_long_line (l : MapsLine) (post : List MapsLine) (hl : line_size ≤ l.chars) :
    ∀ (pre : List MapsLine) (fuel : Nat) (eof : Bool) (line : MapsLine) (ab ae : Nat)
      (name : String) (n : Nat),
      (∀ x ∈ pre, x.chars < line_size) →
      (∀ x ∈ pre, ∀ b1 e1, x.scan ≠ .three b1 e1 "[vdso]") → pre.length < fuel → eof = false →
      maps_loop fuel
        { rest := pre ++ l :: post, eof := eof, line := line,
          addr_begin := ab, addr_end := ae, name := name, reads := n } = .fault := by
  intro pre
  induction pre with
  | nil =>
    intro fuel eof line ab ae name n _ _ hf _
    obtain ⟨f, rfl⟩ : ∃ f, fuel = f + 1 := ⟨fuel - 1, by simp at hf; omega⟩
    rw [List.nil_append, maps_loop_long f _ _ _ _ _ _ _ _ hl]
  | cons y pre ih =>
    intro fuel eof line ab ae name n hfit hpre hf heof
    obtain ⟨f, rfl⟩ : ∃ f, fuel = f + 1 := ⟨fuel - 1, by simp at hf; omega⟩
    have hf1 : pre.length < f := by simp at hf; omega
    have hfit1 : ∀ x ∈ pre, x.chars < line_size :=
      fun x hx => hfit x (List.mem_cons_of_mem _ hx)
    have hpre1 : ∀ x ∈ pre, ∀ b1 e1, x.scan ≠ .three b1 e1 "[vdso]" :=
      fun x hx => hpre x (List.mem_cons_of_mem _ hx)
    have hy := hpre y (List.mem_cons_self _ _)
    rw [List.cons_append, maps_loop_line f _ _ _ _ _ _ _ _ (hfit y (List.mem_cons_self _ _))]
    subst heof
    cases hs : y.scan with
    | zero => exact ih f false y ab ae name (n + 1) hfit1 hpre1 hf1 rfl
    | one b1 => exact ih f false y b1 ae name (n + 1) hfit1 hpre1 hf1 rfl
    | two b1 e1 => exact ih f false y b1 e1 name (n + 1) hfit1 hpre1 hf1 rfl
    | three b1 e1 nm =>
      have hnm : nm ≠ "[vdso]" := fun e0 => hy b1 e1 (by rw [hs, e0])
      simpa [hnm] using ih f false y b1 e1 nm (n + 1) hfit1 hpre1 hf1 rfl

theorem get_vdso_from_maps_found (fuel : Nat) (env : Env) (s : State) (c b e : Nat)
    (pre post : List MapsLine)
    (hmaps : env.maps = some (pre ++ ⟨c, .three b e "[vdso]"⟩ :: post))
    (hfit : ∀ l ∈ pre, l.chars < line_size) (hc : c < line_size)
    (hpre : ∀ l ∈ pre, ∀ b1 e1, l.scan ≠ .three b1 e1 "[vdso]") (hf : pre.length < fuel) :
    get_vdso_from_maps fuel env s =
      .ok (match_range b e env.r_map,
        { s with maps_opens := s.maps_opens + 1,
                 maps_reads := s.maps_reads + (pre.length + 1) }) := by
  obtain ⟨r1, h1, h2, h3, h4⟩ := maps_loop_found c b e post hc pre fuel false env.line0
    env.addr_begin0 env.addr_end0 env.name0 0 hfit hpre hf rfl
  unfold get_vdso_from_maps
  simp only [hmaps, h1, h2, h3, h4, if_true]
  simp

/-- The function on a listing with a line of 4096 or more characters before any
`[vdso]` line. -/
theorem get_vdso_from_maps_long_line (fuel : Nat) (env : Env) (s : State) (l : MapsLine)
    (pre post : List MapsLine) (hmaps : env.maps = some (pre ++ l :: post))
    (hfit : ∀ x ∈ pre, x.chars < line_size) (hl : line_size ≤ l.chars)
    (hpre : ∀ x ∈ pre, ∀ b1 e1, x.scan ≠ .three b1 e1 "[vdso]") (hf : pre.length < fuel) :
    get_vdso_from_maps fuel env s = .fault := by
  unfold get_vdso_from_maps
  simp only [hmaps]
  rw [maps_loop_long_line l post hl pre fuel false env.line0 env.addr_begin0 env.addr_end0
    env.name0 0 hfit hpre hf rfl]

theorem match_range_unique (b e : Nat) (chain : List link_map) (M : link_map) (hM : M ∈ chain)
    (hin : b ≤ M.l_ld ∧ M.l_ld < e)
    (hu : ∀ m ∈ chain, m ≠ M → ¬ (b ≤ m.l_ld ∧ m.l_ld < e)) :
    match_range b e chain = M.self := by
  induction chain with
  | nil => cases hM
  | cons m rest ih =>
    unfold match_range
    by_cases hm : m = M
    · subst hm
      simp [hin]
    · have hno := hu m (List.mem_cons_self _ _) hm
      simp only [hno, if_false]
      apply ih
      · rcases List.mem_cons.1 hM with h | h
        · exact absurd h.symm hm
        · exact h
      · intro x hx
        exact hu x (List.mem_cons_of_mem _ hx)

theorem aliases_none (chain : List link_map) (h : ∀ m ∈ chain, ¬ alias_name m) :
    get_vdso_from_aliases chain = 0 := by
  induction chain with
  | nil => rfl
  | cons m rest ih =>
    unfold get_vdso_from_aliases
    have hno : ¬ alias_match m vdso_aliases = true := fun hm =>
      h m (List.mem_cons_self _ _) ((alias_match_iff_name m).1 hm)
    simp only [hno, if_false]
    exact ih (fun x hx => h x (List.mem_cons_of_mem _ hx))

theorem last_ehdr_none (entries : List (Nat × Nat)) (e0 : Nat)
    (h : ∀ r ∈ entries, r.1 ≠ AT_SYSINFO_EHDR) : last_ehdr entries e0 = e0 := by
  induction entries generalizing e0 with
  | nil => rfl
  | cons r rest ih =>
    have hr := h r (List.mem_cons_self _ _)
    simp only [last_ehdr, hr, if_false]
    exact ih e0 (fun x hx => h x (List.mem_cons_of_mem _ hx))

/-! ### Unfolding `is_vdso` -/

theorem is_vdso_alias (fuel : Nat) (env : Env) (s : State) (map : Nat) (hmap : map ≠ 0)
    (hs : s.vdso_checked = false) (hA : get_vdso_from_aliases env.r_map ≠ 0) :
    is_vdso fuel env s map =
      .ok (map == get_vdso_from_aliases env.r_map,
        { s with vdso_checked := true, vdso := get_vdso_from_aliases env.r_map }) := by
  simp [is_vdso, hmap, hs, hA]

theorem is_vdso_auxv (fuel : Nat) (env : Env) (s : State) (map : Nat) (B : Nat) (s2 : State)
    (hmap : map ≠ 0) (hs : s.vdso_checked = false) (hA : get_vdso_from_aliases env.r_map = 0)
    (hB : get_vdso_from_auxv env { s with vdso_checked := true } = .ok (B, s2)) (hB0 : B ≠ 0) :
    is_vdso fuel env s map = .ok (map == B, { s2 with vdso := B }) := by
  simp [is_vdso, hmap, hs, hA, hB, hB0]

theorem is_vdso_maps (fuel : Nat) (env : Env) (s : State) (map : Nat) (C : Nat)
    (s2 s3 : State) (hmap : map ≠ 0) (hs : s.vdso_checked = false)
    (hA : get_vdso_from_aliases env.r_map = 0)
    (hB : get_vdso_from_auxv env { s with vdso_checked := true } = .ok (0, s2))
    (hC : get_vdso_from_maps fuel env s2 = .ok (C, s3)) (hC0 : C ≠ 0) :
    is_vdso fuel env s map = .ok (map == C, { s3 with vdso := C }) := by
  simp [is_vdso, hmap, hs, hA, hB, hC, hC0]

theorem is_vdso_none (fuel : Nat) (env : Env) (s : State) (map : Nat)
    (s2 s3 : State) (hmap : map ≠ 0) (hs : s.vdso_checked = false)
    (hA : get_vdso_from_aliases env.r_map = 0)
    (hB : get_vdso_from_auxv env { s with vdso_checked := true } = .ok (0, s2))
    (hC : get_vdso_from_maps fuel env s2 = .ok (0, s3)) :
    is_vdso fuel env s map = .ok (false, s3) := by
  simp [is_vdso, hmap, hs, hA, hB, hC]

theorem get_vdso_from_auxv_no_ehdr (env : Env) (s : State) (src : List ReadResult)
    (entries : List (Nat × Nat)) (x : Nat)
    (hsrc : env.auxv = some src) (hok : script_ok src)
    (hbytes : script_bytes src = encode_auxv (entries ++ [(AT_NULL, x)]))
    (hv : auxv_ok entries x) (hfit : entries.length < 256) (hs : s.parsed_auxv = 0)
    (hs0 : s.vdso_ehdr = 0) (hne : ∀ r ∈ entries, r.1 ≠ AT_SYSINFO_EHDR) :
    ∃ s2, get_vdso_from_auxv env s = .ok (0, s2) := by
  obtain ⟨k, _, hp⟩ := parse_wellformed env s src entries x hsrc hok hbytes hv hfit hs
  unfold get_vdso_from_auxv
  rw [hp]
  simp [last_ehdr_none entries _ hne, hs0]

theorem c9_entries_length : c9_entries.length = 256 := by
  unfold c9_entries
  exact List.length_replicate _ _

theorem c9_entries_mem (r : Nat × Nat) (h : r ∈ c9_entries) : r = (AT_PAGESZ, 4096) := by
  unfold c9_entries at h
  exact (List.mem_replicate.1 h).2

/-- The over-long vector `c9_entries ++ [(AT_NULL, 0)]`, delivered by one read,
makes the decoding loop run off the end of `buffer`. -/
theorem parse_c9_fault (env : Env)
    (hsrc : env.auxv = some [.data (encode_auxv (c9_entries ++ [(AT_NULL, 0)]))])
    (s : State) (hs : s.parsed_auxv = 0) :
    parse_auxv_contents env s = .fault := by
  apply parse_overlong_fault env _ (c9_entries ++ [(AT_NULL, 0)]) hsrc
  · intro r hr
    rw [List.mem_singleton] at hr
    subst hr
    refine ⟨by simp, ?_⟩
    intro h
    have h2 := congrArg List.length (ReadResult.data.inj h)
    rw [encode_auxv_length, List.length_append, c9_entries_length] at h2
    simp at h2
  · simp only [script_bytes, List.append_nil]
  · intro r hr
    rcases List.mem_append.1 hr with h | h
    · rw [c9_entries_mem r h]
      simp [AT_PAGESZ, WORD]
    · rw [List.mem_singleton] at h
      subst h
      simp [AT_NULL, WORD]
  · intro i r hi hget
    rw [List.getElem?_append_left (by rw [c9_entries_length]; exact hi)] at hget
    have hmem : r ∈ c9_entries := List.getElem?_mem hget
    rw [c9_entries_mem r hmem]
    decide
  · rw [List.length_append, c9_entries_length]
    simp
  · exact hs

theorem is_vdso_parse_fault (fuel : Nat) (env : Env) (s : State) (map : Nat) (hmap : map ≠ 0)
    (hs : s.vdso_checked = false) (hA : get_vdso_from_aliases env.r_map = 0)
    (hp : parse_auxv_contents env { s with vdso_checked := true } = .fault) :
    is_vdso fuel env s map = .fault := by
  simp [is_vdso, hmap, hs, hA, get_vdso_from_auxv, hp]

/-! ### Memoization and read failures -/

theorem is_vdso_checked_any (fuel : Nat) (env : Env) (s : State) (map : Nat)
    (hs : s.vdso_checked = true) :
    is_vdso fuel env s map = .ok (decide (map ≠ 0) && (map == s.vdso), s) := by
  by_cases hmap : map = 0
  · simp [is_vdso, hmap]
  · simp [is_vdso, hs, hmap]

theorem is_vdso_calls_checked (s : State) (hs : s.vdso_checked = true) :
    ∀ qs : List (Nat × Env × Nat),
      is_vdso_calls s qs
        = .ok (qs.map (fun q => decide (q.2.2 ≠ 0) && (q.2.2 == s.vdso)), s) := by
  intro qs
  induction qs with
  | nil => rfl
  | cons q rest ih =>
    unfold is_vdso_calls
    rw [is_vdso_checked_any q.1 q.2.1 s q.2.2 hs]
    simp only [ih, List.map_cons]

theorem is_vdso_first (fuel : Nat) (env : Env) (s : State) (map : Nat) (b : Bool)
    (s1 : State) (hmap : map ≠ 0) (hs : s.vdso_checked = false) (hv : s.vdso = 0)
    (h : is_vdso fuel env s map = .ok (b, s1)) :
    s1.vdso_checked = true ∧ b = (map == s1.vdso) := by
  by_cases hA : get_vdso_from_aliases env.r_map = 0
  · cases hB : get_vdso_from_auxv env { s with vdso_checked := true } with
    | fault => simp [is_vdso, hmap, hs, hA, hB] at h
    | timeout => simp [is_vdso, hmap, hs, hA, hB] at h
    | ok p =>
      obtain ⟨B, s2⟩ := p
      have hf2 := get_vdso_from_auxv_frame env _ B s2 hB
      by_cases hB0 : B = 0
      · subst hB0
        cases hC : get_vdso_from_maps fuel env s2 with
        | fault => simp [is_vdso, hmap, hs, hA, hB, hC] at h
        | timeout => simp [is_vdso, hmap, hs, hA, hB, hC] at h
        | ok p3 =>
          obtain ⟨C, s3⟩ := p3
          have hf3 := get_vdso_from_maps_frame fuel env s2 C s3 hC
          by_cases hC0 : C = 0
          · subst hC0
            rw [is_vdso_none fuel env s map s2 s3 hmap hs hA hB hC] at h
            cases h
            rw [hf3]
            simp [hf2.1, hf2.2.1, hv, hmap]
          · rw [is_vdso_maps fuel env s map C s2 s3 hmap hs hA hB hC hC0] at h
            cases h
            rw [hf3]
            simp [hf2.1]
      · rw [is_vdso_auxv fuel env s map B s2 hmap hs hA hB hB0] at h
        cases h
        simp [hf2.1]
  · rw [is_vdso_alias fuel env s map hmap hs hA] at h
    cases h
    simp

theorem read_loop_error (post : List ReadResult) :
    ∀ (pre : List ReadResult) (fuel : Nat) (buf : List Nat) (off n : Nat),
      script_ok pre → pre.length < fuel → off + (script_bytes pre).length ≤ buffer_size →
      ∃ r1, read_loop fuel { src := pre ++ .error :: post, buffer := buf, offset := off,
                             reads := n } = some (.failed, r1) := by
  intro pre
  induction pre with
  | nil =>
    intro fuel buf off n _ hf _
    obtain ⟨f, rfl⟩ : ∃ f, fuel = f + 1 := ⟨fuel - 1, by simp at hf; omega⟩
    exact ⟨_, by simp [read_loop, gotcha_read]; rfl⟩
  | cons r rest ih =>
    intro fuel buf off n hok hf hlen
    obtain ⟨f, rfl⟩ : ∃ f, fuel = f + 1 := ⟨fuel - 1, by simp at hf; omega⟩
    have hrest : script_ok rest := fun x hx => hok x (List.mem_cons_of_mem _ hx)
    have hr := hok r (List.mem_cons_self _ _)
    have hf1 : rest.length < f := by simp at hf; omega
    cases r with
    | eintr =>
      obtain ⟨r1, h1⟩ := ih f buf off (n + 1) hrest hf1 (by simpa [script_bytes] using hlen)
      exact ⟨r1, by simpa [read_loop, gotcha_read] using h1⟩
    | error => exact absurd rfl hr.1
    | data c =>
      have hc : c ≠ [] := fun e => hr.2 (by rw [e])
      have hcl : c.length ≠ 0 := fun e => hc (List.length_eq_zero.1 e)
      simp only [script_bytes, List.length_append] at hlen
      have hfit : c.length ≤ buffer_size - off := by omega
      have hoff : off ≠ buffer_size := by omega
      obtain ⟨r1, h1⟩ := ih f (store buf off c) (off + c.length) (n + 1) hrest hf1 (by omega)
      exact ⟨r1, by simpa [read_loop, gotcha_read, hfit, hcl, hoff] using h1⟩

/-! ### Termination of the parser -/

theorem gotcha_read_le (src : List ReadResult) (count : Nat) (bytes : List Nat)
    (rest : List ReadResult) (h : gotcha_read src count = (.data bytes, rest)) :
    bytes.length ≤ count ∧ rest.length ≤ src.length ∧
      (bytes.length < count → rest.length < src.length ∨ src = []) := by
  cases src with
  | nil =>
    simp [gotcha_read] at h
    obtain ⟨rfl, rfl⟩ := h
    simp
  | cons r tl =>
    cases r with
    | eintr => simp [gotcha_read] at h
    | error => simp [gotcha_read] at h
    | data c =>
      simp only [gotcha_read] at h
      split at h
      · rename_i hle
        simp at h
        obtain ⟨rfl, rfl⟩ := h
        exact ⟨hle, by simp, fun _ => Or.inl (by simp)⟩
      · rename_i hgt
        simp at h
        obtain ⟨rfl, rfl⟩ := h
        refine ⟨by simp, by simp, ?_⟩
        intro hlt
        simp at hlt
        omega

/-- The inner loop always ends within `src.length + 2` rounds, and never by the
`break` at `offset == buffer_size`: a read that returns bytes returns at most
`buffer_size - offset` of them. -/
theorem read_loop_total :
    ∀ (fuel : Nat) (r : Reader), r.offset ≤ buffer_size →
      r.src.length + (if r.offset < buffer_size then 2 else 1) ≤ fuel →
      ∃ e r1, read_loop fuel r = some (e, r1) ∧ e ≠ .full := by
  intro fuel
  induction fuel with
  | zero =>
    intro r _ hf
    split at hf <;> omega
  | succ f ih =>
    intro r ho hf
    unfold read_loop
    cases hg : gotcha_read r.src (buffer_size - r.offset) with
    | mk res rest =>
      cases res with
      | error => exact ⟨_, _, rfl, by simp⟩
      | eintr =>
        have hrest : rest.length + 1 = r.src.length := by
          cases hsrc : r.src with
          | nil => simp [hsrc, gotcha_read] at hg
          | cons x tl =>
            cases x with
            | eintr =>
              simp [hsrc, gotcha_read] at hg
              simp [hg]
            | error => simp [hsrc, gotcha_read] at hg
            | data c =>
              simp only [hsrc, gotcha_read] at hg
              split at hg <;> simp at hg
        apply ih
        · exact ho
        · simp only
          split at hf <;> split <;> omega
      | data bytes =>
        have hle := gotcha_read_le _ _ _ _ hg
        simp only
        by_cases hb : bytes.length = 0
        · simp only [hb, if_true]
          exact ⟨_, _, rfl, by simp⟩
        · have hoff : r.offset ≠ buffer_size := by omega
          simp only [hb, hoff, if_false]
          apply ih
          · simp only
            omega
          · simp only
            split at hf
            · split
              · rcases hle.2.2 (by omega) with h | h
                · omega
                · simp only [h, gotcha_read, Prod.mk.injEq, ReadResult.data.injEq] at hg
                  exact absurd (by rw [← hg.1]; rfl) hb
              · omega
            · omega

theorem scan_auxv_ne_timeout (buf : List Nat) :
    ∀ (n a : Nat) (s : State), scan_auxv buf n a s ≠ .timeout := by
  intro n
  induction n with
  | zero => intro a s; simp [scan_auxv]
  | succ n ih =>
    intro a s
    unfold scan_auxv
    simp only
    split
    · simp
    · split
      · exact ih _ _
      · split
        · exact ih _ _
        · exact ih _ _

/-- The function `parse_auxv_contents` always ends: the fuel it gives its loops is
never used up, whatever the file delivers. -/
theorem parse_auxv_contents_total (env : Env) (s : State) :
    parse_auxv_contents env s ≠ .timeout := by
  unfold parse_auxv_contents
  split
  · simp
  · cases ha : env.auxv with
    | none => simp
    | some src =>
      simp only
      obtain ⟨e, r1, h1, h2⟩ := read_loop_total (src.length + 2)
        { src := src, buffer := buffer_init env, offset := 0, reads := 0 }
        (Nat.zero_le _) (by simp [buffer_size])
      rw [parse_loop, h1]
      cases e with
      | failed => simp
      | full => exact absurd rfl h2
      | done =>
        simp only
        cases hsc : scan_auxv r1.buffer (buffer_size / 16) 0
            { s with parsed_auxv := 1, auxv_opens := s.auxv_opens + 1 } with
        | ok s1 => simp
        | fault => simp
        | timeout => exact absurd hsc (scan_auxv_ne_timeout _ _ _ _)

/-- The function `get_auxv_pagesize` always ends, with a value or with a fault. -/
theorem get_auxv_pagesize_total (env : Env) (s : State) :
    get_auxv_pagesize env s ≠ .timeout := by
  unfold get_auxv_pagesize
  cases hp : parse_auxv_contents env s with
  | ok p =>
    obtain ⟨ret, s1⟩ := p
    simp only
    split <;> simp
  | fault => simp
  | timeout => exact absurd hp (parse_auxv_contents_total env s)

/-! ### The maps loop at the end of the file -/

/-- One turn of the loop at the end of the file, `line` holding a string. -/
theorem maps_loop_end (fuel : Nat) (eof : Bool) (line : MapsLine) (ab ae : Nat)
    (name : String) (n : Nat) (hl : line.chars < line_size) :
    maps_loop (fuel + 1) { rest := [], eof := eof, line := line, addr_begin := ab,
                           addr_end := ae, name := name, reads := n } =
      match line.scan with
      | .zero => maps_loop fuel { rest := [], eof := true, line := line, addr_begin := ab,
                                  addr_end := ae, name := name, reads := n + 1 }
      | .one b => maps_loop fuel { rest := [], eof := true, line := line, addr_begin := b,
                                   addr_end := ae, name := name, reads := n + 1 }
      | .two b e => maps_loop fuel { rest := [], eof := true, line := line, addr_begin := b,
                                     addr_end := e, name := name, reads := n + 1 }
      | .three b e x =>
        if x = "[vdso]" then
          .ok (true, { rest := [], eof := true, line := line, addr_begin := b, addr_end := e,
                       name := x, reads := n + 1 })
        else
          .ok (false, { rest := [], eof := true, line := line, addr_begin := b, addr_end := e,
                        name := x, reads := n + 1 }) := by
  have h2 : ¬ line_size ≤ line.chars := by omega
  obtain ⟨c, sc⟩ := line
  cases sc <;> simp [maps_loop, fgets, sscanf, h2]

/-- One turn of the loop at the end of the file, `line` holding no NUL. -/
theorem maps_loop_end_long (fuel : Nat) (eof : Bool) (line : MapsLine) (ab ae : Nat)
    (name : String) (n : Nat) (hl : line_size ≤ line.chars) :
    maps_loop (fuel + 1) { rest := [], eof := eof, line := line, addr_begin := ab,
                           addr_end := ae, name := name, reads := n } = .fault := by
  simp [maps_loop, fgets, sscanf, hl]

theorem maps_loop_stuck :
    ∀ (fuel : Nat) (eof : Bool) (line : MapsLine) (ab ae : Nat) (name : String) (n : Nat),
      line.chars < line_size → (∀ b e x, line.scan ≠ .three b e x) →
      maps_loop fuel { rest := [], eof := eof, line := line, addr_begin := ab,
                       addr_end := ae, name := name, reads := n } = .timeout := by
  intro fuel
  induction fuel with
  | zero => intro eof line ab ae name n _ _; rfl
  | succ f ih =>
    intro eof line ab ae name n hfit hline
    rw [maps_loop_end f eof line ab ae name n hfit]
    cases hs : line.scan with
    | zero => exact ih _ _ _ _ _ _ hfit hline
    | one b => exact ih _ _ _ _ _ _ hfit hline
    | two b e => exact ih _ _ _ _ _ _ hfit hline
    | three b e x => exact absurd hs (hline b e x)

theorem maps_loop_stuck_never (fuel : Nat) (eof : Bool) (line : MapsLine) (ab ae : Nat)
    (name : String) (n : Nat) (hline : ∀ b e x, line.scan ≠ .three b e x)
    (res : Bool × MapsReader) :
    maps_loop fuel { rest := [], eof := eof, line := line, addr_begin := ab,
                     addr_end := ae, name := name, reads := n } ≠ .ok res := by
  by_cases hfit : line.chars < line_size
  · rw [maps_loop_stuck fuel eof line ab ae name n hfit hline]
    intro h; cases h
  · cases fuel with
    | zero => intro h; cases h
    | succ f =>
      rw [maps_loop_end_long f eof line ab ae name n (by omega)]
      intro h; cases h

theorem maps_loop_forever :
    ∀ (lines : List MapsLine) (fuel : Nat) (line : MapsLine) (ab ae : Nat) (nm : String)
      (n : Nat),
      (∀ l ∈ lines, l.chars < line_size) → (final_line line lines).chars < line_size →
      (∀ l ∈ lines, ∀ b e, l.scan ≠ .three b e "[vdso]") →
      (∀ b e x, (final_line line lines).scan ≠ .three b e x) →
      maps_loop fuel { rest := lines, eof := false, line := line, addr_begin := ab,
                       addr_end := ae, name := nm, reads := n } = .timeout := by
  intro lines
  induction lines with
  | nil =>
    intro fuel line ab ae nm n _ hfit0 _ hfin
    exact maps_loop_stuck fuel false line ab ae nm n hfit0 hfin
  | cons l rest ih =>
    intro fuel line ab ae nm n hfit hfit0 hno hfin
    cases fuel with
    | zero => rfl
    | succ f =>
      have hfit1 : ∀ x ∈ rest, x.chars < line_size :=
        fun x hx => hfit x (List.mem_cons_of_mem _ hx)
      have hno1 : ∀ x ∈ rest, ∀ b e, x.scan ≠ .three b e "[vdso]" :=
        fun x hx => hno x (List.mem_cons_of_mem _ hx)
      have hl := hno l (List.mem_cons_self _ _)
      have hfin1 : ∀ b e x, (final_line l rest).scan ≠ .three b e x := hfin
      have hfit2 : (final_line l rest).chars < line_size := hfit0
      rw [maps_loop_line f _ _ _ _ _ _ _ _ (hfit l (List.mem_cons_self _ _))]
      cases hs : l.scan with
      | zero => exact ih f l ab ae nm (n + 1) hfit1 hfit2 hno1 hfin1
      | one b1 => exact ih f l b1 ae nm (n + 1) hfit1 hfit2 hno1 hfin1
      | two b1 e1 => exact ih f l b1 e1 nm (n + 1) hfit1 hfit2 hno1 hfin1
      | three b1 e1 x =>
        have hx : x ≠ "[vdso]" := fun e0 => hl b1 e1 (by rw [hs, e0])
        simpa [hx] using ih f l b1 e1 x (n + 1) hfit1 hfit2 hno1 hfin1

/-- Without a `[vdso]` line and with no label in the line that `line` holds at the
end of the file, the loop is never left by `break` or `return`, whatever the
lengths of the lines. -/
theorem maps_loop_never :
    ∀ (lines : List MapsLine) (fuel : Nat) (line : MapsLine) (ab ae : Nat) (nm : String)
      (n : Nat),
      (∀ l ∈ lines, ∀ b e, l.scan ≠ .three b e "[vdso]") →
      (∀ b e x, (final_line line lines).scan ≠ .three b e x) →
      ∀ res, maps_loop fuel { rest := lines, eof := false, line := line, addr_begin := ab,
                              addr_end := ae, name := nm, reads := n } ≠ .ok res := by
  intro lines
  induction lines with
  | nil =>
    intro fuel line ab ae nm n _ hfin res
    exact maps_loop_stuck_never fuel false line ab ae nm n hfin res
  | cons l rest ih =>
    intro fuel line ab ae nm n hno hfin res
    cases fuel with
    | zero => intro h; cases h
    | succ f =>
      by_cases hfit : l.chars < line_size
      · have hno1 : ∀ x ∈ rest, ∀ b e, x.scan ≠ .three b e "[vdso]" :=
          fun x hx => hno x (List.mem_cons_of_mem _ hx)
        have hl := hno l (List.mem_cons_self _ _)
        have hfin1 : ∀ b e x, (final_line l rest).scan ≠ .three b e x := hfin
        rw [maps_loop_line f _ _ _ _ _ _ _ _ hfit]
        cases hs : l.scan with
        | zero => exact ih f l ab ae nm (n + 1) hno1 hfin1 res
        | one b1 => exact ih f l b1 ae nm (n + 1) hno1 hfin1 res
        | two b1 e1 => exact ih f l b1 e1 nm (n + 1) hno1 hfin1 res
        | three b1 e1 x =>
          have hx : x ≠ "[vdso]" := fun e0 => hl b1 e1 (by rw [hs, e0])
          simpa [hx] using ih f l b1 e1 x (n + 1) hno1 hfin1 res
      · rw [maps_loop_long f _ _ _ _ _ _ _ _ (by omega)]
        intro h; cases h

/-! ### First match in chain order -/

theorem aliases_first (pre post : List link_map) (m : link_map)
    (hpre : ∀ x ∈ pre, ¬ alias_name x) (hm : alias_name m) :
    get_vdso_from_aliases (pre ++ m :: post) = m.self := by
  induction pre with
  | nil => simp [get_vdso_from_aliases, (alias_match_iff_name m).2 hm]
  | cons x rest ih =>
    have hx : ¬ alias_match x vdso_aliases = true := fun h =>
      hpre x (List.mem_cons_self _ _) ((alias_match_iff_name x).1 h)
    simp only [List.cons_append, get_vdso_from_aliases, hx, if_false]
    exact ih (fun y hy => hpre y (List.mem_cons_of_mem _ hy))

theorem aliases_zero_iff (chain : List link_map) (hc : ∀ m ∈ chain, m.self ≠ 0) :
    get_vdso_from_aliases chain = 0 ↔ ∀ m ∈ chain, ¬ alias_name m := by
  constructor
  · intro h
    induction chain with
    | nil => intro m hm; cases hm
    | cons x rest ih =>
      unfold get_vdso_from_aliases at h
      by_cases hx : alias_match x vdso_aliases = true
      · simp only [hx, if_true] at h
        exact absurd h (hc x (List.mem_cons_self _ _))
      · simp only [hx, if_false] at h
        intro m hm
        rcases List.mem_cons.1 hm with rfl | hm
        · exact fun ha => hx ((alias_match_iff_name m).2 ha)
        · exact ih (fun y hy => hc y (List.mem_cons_of_mem _ hy)) h m hm
  · exact aliases_none chain

theorem match_range_first (b e : Nat) (pre post : List link_map) (m : link_map)
    (hpre : ∀ x ∈ pre, ¬ (b ≤ x.l_ld ∧ x.l_ld < e)) (hm : b ≤ m.l_ld ∧ m.l_ld < e) :
    match_range b e (pre ++ m :: post) = m.self := by
  induction pre with
  | nil => simp [match_range, hm]
  | cons x rest ih =>
    have hx := hpre x (List.mem_cons_self _ _)
    simp only [List.cons_append, match_range, hx, if_false]
    exact ih (fun y hy => hpre y (List.mem_cons_of_mem _ hy))

theorem match_range_none (b e : Nat) (chain : List link_map)
    (h : ∀ x ∈ chain, ¬ (b ≤ x.l_ld ∧ x.l_ld < e)) : match_range b e chain = 0 := by
  induction chain with
  | nil => rfl
  | cons x rest ih =>
    have hx := h x (List.mem_cons_self _ _)
    simp only [match_range, hx, if_false]
    exact ih (fun y hy => h y (List.mem_cons_of_mem _ hy))

theorem match_dynamic_first (D : Nat) (pre post : List link_map) (m : link_map)
    (hpre : ∀ x ∈ pre, (x.l_addr + D) % WORD ≠ x.l_ld) (hm : (m.l_addr + D) % WORD = m.l_ld) :
    match_dynamic D (pre ++ m :: post) = m.self := by
  induction pre with
  | nil => simp [match_dynamic, hm]
  | cons x rest ih =>
    have hx := hpre x (List.mem_cons_self _ _)
    simp only [List.cons_append, match_dynamic, hx, if_false]
    exact ih (fun y hy => hpre y (List.mem_cons_of_mem _ hy))

theorem match_dynamic_none (D : Nat) (chain : List link_map)
    (h : ∀ x ∈ chain, (x.l_addr + D) % WORD ≠ x.l_ld) : match_dynamic D chain = 0 := by
  induction chain with
  | nil => rfl
  | cons x rest ih =>
    have hx := h x (List.mem_cons_self _ _)
    simp only [match_dynamic, hx, if_false]
    exact ih (fun y hy => h y (List.mem_cons_of_mem _ hy))

/-! ### The program header loop -/

theorem phdr_loop_succ (env : Env) (base n d : Nat) :
    phdr_loop env base (n + 1) d =
      if (env.phdr_at (base + 56 * n)).p_type = PT_DYNAMIC then
        (env.phdr_at (base + 56 * n)).p_vaddr
      else phdr_loop env base n d := by
  unfold phdr_loop
  rw [List.range_succ, List.foldl_append]
  rfl

theorem phdr_loop_none (env : Env) (base d : Nat) :
    ∀ n, (∀ q, q < n → (env.phdr_at (base + 56 * q)).p_type ≠ PT_DYNAMIC) →
      phdr_loop env base n d = d := by
  intro n
  induction n with
  | zero => intro _; rfl
  | succ n ih =>
    intro h
    rw [phdr_loop_succ, if_neg (h n (Nat.lt_succ_self n))]
    exact ih (fun q hq => h q (Nat.lt_succ_of_lt hq))

theorem phdr_loop_last (env : Env) (base d p : Nat) :
    ∀ n, p < n → (env.phdr_at (base + 56 * p)).p_type = PT_DYNAMIC →
      (∀ q, p < q → q < n → (env.phdr_at (base + 56 * q)).p_type ≠ PT_DYNAMIC) →
      phdr_loop env base n d = (env.phdr_at (base + 56 * p)).p_vaddr := by
  intro n
  induction n with
  | zero => intro hp; omega
  | succ n ih =>
    intro hp hdyn hlast
    rw [phdr_loop_succ]
    by_cases hn : n = p
    · subst hn
      rw [if_pos hdyn]
    · rw [if_neg (hlast n (by omega) (Nat.lt_succ_self n))]
      exact ih (by omega) hdyn (fun q h1 h2 => hlast q h1 (Nat.lt_succ_of_lt h2))

theorem get_vdso_from_auxv_eq (env : Env) (s : State) (ret : Int) (s1 : State)
    (hp : parse_auxv_contents env s = .ok (ret, s1)) (he : s1.vdso_ehdr ≠ 0) :
    get_vdso_from_auxv env s =
      .ok (match_dynamic
            (phdr_loop env (((env.ehdr_at s1.vdso_ehdr).e_phoff + s1.vdso_ehdr) % WORD)
              (env.ehdr_at s1.vdso_ehdr).e_phnum env.vdso_dynamic0) env.r_map, s1) := by
  simp [get_vdso_from_auxv, hp, he]

/-! ### Records after the first `AT_NULL` and reordered vectors -/

theorem scan_wellformed_tail (env : Env) (entries after : List (Nat × Nat)) (x : Nat)
    (s : State) (hv : auxv_ok entries x) (ha : ∀ r ∈ after, r.1 < WORD ∧ r.2 < WORD)
    (hfit : entries.length < 256) :
    scan_auxv (fill (buffer_init env) 0 (encode_auxv (entries ++ (AT_NULL, x) :: after)))
        (buffer_size / 16) 0 s
      = .ok { s with vdso_ehdr := last_ehdr entries s.vdso_ehdr,
                     auxv_pagesz := last_pagesz entries s.auxv_pagesz } := by
  have hw : ∀ r ∈ entries ++ (AT_NULL, x) :: after, r.1 < WORD ∧ r.2 < WORD := by
    intro r hr
    rcases List.mem_append.1 hr with h | h
    · exact (hv.1 r h).2
    · rcases List.mem_cons.1 h with h | h
      · subst h
        exact ⟨by simp [AT_NULL, WORD], hv.2⟩
      · exact ha r h
  have hrec := rec_at_fill env _ hw
  apply scan_auxv_entries
  · intro i r hi
    rw [Nat.zero_add]
    have hlt : i < entries.length := by
      rcases Nat.lt_or_ge i entries.length with h1 | h1
      · exact h1
      · rw [List.getElem?_eq_none h1] at hi
        cases hi
    apply hrec i r (by omega)
    rw [List.getElem?_append_left hlt]
    exact hi
  · intro r hr
    exact (hv.1 r hr).1
  · simp only [buffer_size]
    omega
  · have hget : (entries ++ (AT_NULL, x) :: after)[entries.length]? = some (AT_NULL, x) := by
      rw [List.getElem?_append_right (le_refl _)]
      simp
    have := hrec entries.length (AT_NULL, x) hfit hget
    unfold rec_at at this
    rw [Nat.zero_add]
    exact (Prod.ext_iff.1 this).1

theorem parse_wellformed_tail (env : Env) (s : State) (src : List ReadResult)
    (entries after : List (Nat × Nat)) (x : Nat)
    (hsrc : env.auxv = some src) (hok : script_ok src)
    (hbytes : script_bytes src = encode_auxv (entries ++ (AT_NULL, x) :: after))
    (hv : auxv_ok entries x) (ha : ∀ r ∈ after, r.1 < WORD ∧ r.2 < WORD)
    (hfit : entries.length < 256) (hs : s.parsed_auxv = 0) :
    ∃ k, 0 < k ∧
      parse_auxv_contents env s =
        .ok (0, { s with vdso_ehdr := last_ehdr entries s.vdso_ehdr,
                         auxv_pagesz := last_pagesz entries s.auxv_pagesz,
                         parsed_auxv := 1,
                         auxv_opens := s.auxv_opens + 1,
                         auxv_reads := s.auxv_reads + k }) := by
  obtain ⟨r1, h1, h2, h3⟩ := read_loop_ok src (src.length + 2) (buffer_init env) 0 0 hok
    (le_refl _) (Nat.zero_le _) (buffer_init_length env)
  refine ⟨r1.reads, h3, ?_⟩
  unfold parse_auxv_contents
  simp only [hs, ne_eq, not_true_eq_false, if_false, hsrc]
  rw [parse_loop, h1]
  simp only [h2, hbytes, scan_wellformed_tail env entries after x _ hv ha hfit]
  simp

theorem pagesize_wellformed_tail (env : Env) (src : List ReadResult)
    (entries after : List (Nat × Nat)) (x : Nat)
    (hsrc : env.auxv = some src) (hok : script_ok src)
    (hbytes : script_bytes src = encode_auxv (entries ++ (AT_NULL, x) :: after))
    (hv : auxv_ok entries x) (ha : ∀ r ∈ after, r.1 < WORD ∧ r.2 < WORD)
    (hfit : entries.length < 256) :
    ∃ s, get_auxv_pagesize env fresh = .ok (last_pagesz entries 0, s) := by
  obtain ⟨k, _, hp⟩ := parse_wellformed_tail env fresh src entries after x hsrc hok hbytes hv
    ha hfit rfl
  unfold get_auxv_pagesize
  rw [hp]
  refine ⟨{ fresh with vdso_ehdr := last_ehdr entries 0, auxv_pagesz := last_pagesz entries 0,
                       parsed_auxv := 1, auxv_opens := 1, auxv_reads := k }, ?_⟩
  simp [fresh]

theorem last_pagesz_const (entries : List (Nat × Nat)) (V : Nat) (p : Int)
    (h : ∀ r ∈ entries, r.1 = AT_PAGESZ → r.2 = V) :
    last_pagesz entries p = if ∃ r ∈ entries, r.1 = AT_PAGESZ then to_int V else p := by
  induction entries generalizing p with
  | nil => simp [last_pagesz]
  | cons r rest ih =>
    have hrest : ∀ x ∈ rest, x.1 = AT_PAGESZ → x.2 = V :=
      fun x hx => h x (List.mem_cons_of_mem _ hx)
    simp only [last_pagesz, ih _ hrest]
    by_cases hr : r.1 = AT_PAGESZ
    · have hV := h r (List.mem_cons_self _ _) hr
      have hex : ∃ x ∈ r :: rest, x.1 = AT_PAGESZ := ⟨r, List.mem_cons_self _ _, hr⟩
      simp only [hr, if_true, hV, hex]
      split <;> rfl
    · simp only [hr, if_false, List.mem_cons, exists_eq_or_imp, false_or]

theorem last_ehdr_const (entries : List (Nat × Nat)) (V : Nat) (e0 : Nat)
    (h : ∀ r ∈ entries, r.1 = AT_SYSINFO_EHDR → r.2 = V) :
    last_ehdr entries e0 = if ∃ r ∈ entries, r.1 = AT_SYSINFO_EHDR then V else e0 := by
  induction entries generalizing e0 with
  | nil => simp [last_ehdr]
  | cons r rest ih =>
    have hrest : ∀ x ∈ rest, x.1 = AT_SYSINFO_EHDR → x.2 = V :=
      fun x hx => h x (List.mem_cons_of_mem _ hx)
    simp only [last_ehdr, ih _ hrest]
    by_cases hr : r.1 = AT_SYSINFO_EHDR
    · have hV := h r (List.mem_cons_self _ _) hr
      have hex : ∃ x ∈ r :: rest, x.1 = AT_SYSINFO_EHDR := ⟨r, List.mem_cons_self _ _, hr⟩
      simp only [hr, if_true, hV, hex]
      split <;> rfl
    · simp only [hr, if_false, List.mem_cons, exists_eq_or_imp, false_or]

theorem last_pagesz_perm (e1 e2 : List (Nat × Nat)) (p : Int) (hperm : e1.Perm e2)
    (h : ∀ r ∈ e1, ∀ t ∈ e1, r.1 = AT_PAGESZ → t.1 = AT_PAGESZ → r.2 = t.2) :
    last_pagesz e1 p = last_pagesz e2 p := by
  by_cases hex : ∃ r ∈ e1, r.1 = AT_PAGESZ
  · obtain ⟨r0, hr0, ht0⟩ := hex
    have h1 : ∀ r ∈ e1, r.1 = AT_PAGESZ → r.2 = r0.2 := fun r hr ht => h r hr r0 hr0 ht ht0
    have h2 : ∀ r ∈ e2, r.1 = AT_PAGESZ → r.2 = r0.2 :=
      fun r hr ht => h1 r (hperm.mem_iff.2 hr) ht
    rw [last_pagesz_const e1 r0.2 p h1, last_pagesz_const e2 r0.2 p h2]
    rw [if_pos ⟨r0, hr0, ht0⟩, if_pos ⟨r0, hperm.mem_iff.1 hr0, ht0⟩]
  · have hn1 : ∀ r ∈ e1, r.1 ≠ AT_PAGESZ := fun r hr ht => hex ⟨r, hr, ht⟩
    have hn2 : ∀ r ∈ e2, r.1 ≠ AT_PAGESZ := fun r hr => hn1 r (hperm.mem_iff.2 hr)
    rw [last_pagesz_none e1 p hn1, last_pagesz_none e2 p hn2]

theorem last_ehdr_perm (e1 e2 : List (Nat × Nat)) (e0 : Nat) (hperm : e1.Perm e2)
    (h : ∀ r ∈ e1, ∀ t ∈ e1, r.1 = AT_SYSINFO_EHDR → t.1 = AT_SYSINFO_EHDR → r.2 = t.2) :
    last_ehdr e1 e0 = last_ehdr e2 e0 := by
  by_cases hex : ∃ r ∈ e1, r.1 = AT_SYSINFO_EHDR
  · obtain ⟨r0, hr0, ht0⟩ := hex
    have h1 : ∀ r ∈ e1, r.1 = AT_SYSINFO_EHDR → r.2 = r0.2 :=
      fun r hr ht => h r hr r0 hr0 ht ht0
    have h2 : ∀ r ∈ e2, r.1 = AT_SYSINFO_EHDR → r.2 = r0.2 :=
      fun r hr ht => h1 r (hperm.mem_iff.2 hr) ht
    rw [last_ehdr_const e1 r0.2 e0 h1, last_ehdr_const e2 r0.2 e0 h2]
    rw [if_pos ⟨r0, hr0, ht0⟩, if_pos ⟨r0, hperm.mem_iff.1 hr0, ht0⟩]
  · have hn1 : ∀ r ∈ e1, r.1 ≠ AT_SYSINFO_EHDR := fun r hr ht => hex ⟨r, hr, ht⟩
    have hn2 : ∀ r ∈ e2, r.1 ≠ AT_SYSINFO_EHDR := fun r hr => hn1 r (hperm.mem_iff.2 hr)
    rw [last_ehdr_none e1 e0 hn1, last_ehdr_none e2 e0 hn2]

/-! ### The parser seen through its results -/

theorem read_loop_one (c : List Nat) (buf : List Nat) (hb : buf.length = buffer_size) :
    ∃ r1, read_loop 3 { src := [.data c], buffer := buf, offset := 0, reads := 0 }
            = some (.done, r1) ∧ r1.buffer = fill buf 0 c := by
  by_cases hc : c = []
  · subst hc
    refine ⟨_, by simp [read_loop, gotcha_read]; rfl, ?_⟩
    simp [store_nil, fill_nil _ _ hb]
  · have hok : script_ok [.data c] := by
      intro r hr
      rw [List.mem_singleton] at hr
      subst hr
      exact ⟨by simp, fun h => hc (ReadResult.data.inj h)⟩
    obtain ⟨r1, h1, h2, _⟩ := read_loop_ok [.data c] 3 buf 0 0 hok (le_refl _)
      (Nat.zero_le _) hb
    refine ⟨r1, h1, ?_⟩
    simpa [script_bytes] using h2

theorem parse_view_of_buffer (env : Env) (s : State) (src : List ReadResult) (r1 : Reader)
    (hsrc : env.auxv = some src) (hs : s.parsed_auxv = 0)
    (hread : read_loop (src.length + 2)
      { src := src, buffer := buffer_init env, offset := 0, reads := 0 } = some (.done, r1)) :
    parse_view (parse_auxv_contents env s) =
      scan_view (scan_auxv r1.buffer (buffer_size / 16) 0
        { s with parsed_auxv := 1, auxv_opens := s.auxv_opens + 1 }) := by
  unfold parse_auxv_contents
  simp only [hs, ne_eq, not_true_eq_false, if_false, hsrc]
  rw [parse_loop, hread]
  simp only
  cases scan_auxv r1.buffer (buffer_size / 16) 0
      { s with parsed_auxv := 1, auxv_opens := s.auxv_opens + 1 } with
  | ok s2 => simp [parse_view, scan_view]
  | fault => rfl
  | timeout => rfl

theorem parse_view_script_ok (env : Env) (s : State) (src : List ReadResult)
    (hsrc : env.auxv = some src) (hs : s.parsed_auxv = 0) (hok : script_ok src) :
    parse_view (parse_auxv_contents env s) =
      scan_view (scan_auxv (fill (buffer_init env) 0 (script_bytes src)) (buffer_size / 16) 0
        { s with parsed_auxv := 1, auxv_opens := s.auxv_opens + 1 }) := by
  obtain ⟨r1, h1, h2, _⟩ := read_loop_ok src (src.length + 2) (buffer_init env) 0 0 hok
    (le_refl _) (Nat.zero_le _) (buffer_init_length env)
  rw [parse_view_of_buffer env s src r1 hsrc hs h1, h2]

theorem parse_view_one_read (env : Env) (s : State) (c : List Nat)
    (hsrc : env.auxv = some [.data c]) (hs : s.parsed_auxv = 0) :
    parse_view (parse_auxv_contents env s) =
      scan_view (scan_auxv (fill (buffer_init env) 0 c) (buffer_size / 16) 0
        { s with parsed_auxv := 1, auxv_opens := s.auxv_opens + 1 }) := by
  obtain ⟨r1, h1, h2⟩ := read_loop_one c (buffer_init env) (buffer_init_length env)
  rw [parse_view_of_buffer env s [.data c] r1 hsrc hs h1, h2]

theorem buffer_init_congr (env1 env2 : Env) (h : env1.buffer0 = env2.buffer0) :
    buffer_init env1 = buffer_init env2 := by
  unfold buffer_init
  rw [h]

theorem scan_view_congr (buf : List Nat) :
    ∀ (n a : Nat) (s t : State), s.vdso_ehdr = t.vdso_ehdr → s.auxv_pagesz = t.auxv_pagesz →
      scan_view (scan_auxv buf n a s) = scan_view (scan_auxv buf n a t) := by
  intro n
  induction n with
  | zero => intro a s t _ _; rfl
  | succ n ih =>
    intro a s t he hp
    unfold scan_auxv
    simp only
    split
    · simp [scan_view, he, hp]
    · split
      · exact ih _ _ _ rfl hp
      · split
        · exact ih _ _ _ he rfl
        · exact ih _ _ _ he hp

theorem scan_view_ok (o1 o2 : Outcome State) (s1 s2 : State) (h : scan_view o1 = scan_view o2)
    (h1 : o1 = .ok s1) (h2 : o2 = .ok s2) :
    s1.vdso_ehdr = s2.vdso_ehdr ∧ s1.auxv_pagesz = s2.auxv_pagesz := by
  subst h1 h2
  simp [scan_view] at h
  exact ⟨h.2, h.1⟩

theorem parse_loop_view_congr :
    ∀ (n fuel : Nat) (r : Reader) (s t : State), s.vdso_ehdr = t.vdso_ehdr →
      s.auxv_pagesz = t.auxv_pagesz →
      parse_view (parse_loop n fuel r s) = parse_view (parse_loop n fuel r t) := by
  intro n
  induction n with
  | zero => intro fuel r s t _ _; rfl
  | succ n ih =>
    intro fuel r s t he hp
    unfold parse_loop
    cases hrl : read_loop fuel r with
    | none => rfl
    | some q =>
      obtain ⟨exit, r1⟩ := q
      have hsc := scan_view_congr r1.buffer (buffer_size / 16) 0 s t he hp
      cases exit with
      | failed => simp [parse_view, he, hp]
      | done =>
        simp only
        cases h1 : scan_auxv r1.buffer (buffer_size / 16) 0 s with
        | ok s2 =>
          cases h2 : scan_auxv r1.buffer (buffer_size / 16) 0 t with
          | ok t2 =>
            have := scan_view_ok _ _ s2 t2 hsc h1 h2
            simp [parse_view, this.1, this.2]
          | fault => rw [h1, h2] at hsc; simp [scan_view] at hsc
          | timeout => rw [h1, h2] at hsc; simp [scan_view] at hsc
        | fault =>
          cases h2 : scan_auxv r1.buffer (buffer_size / 16) 0 t with
          | ok t2 => rw [h1, h2] at hsc; simp [scan_view] at hsc
          | fault => rfl
          | timeout => rw [h1, h2] at hsc; simp [scan_view] at hsc
        | timeout =>
          cases h2 : scan_auxv r1.buffer (buffer_size / 16) 0 t with
          | ok t2 => rw [h1, h2] at hsc; simp [scan_view] at hsc
          | fault => rw [h1, h2] at hsc; simp [scan_view] at hsc
          | timeout => rfl
      | full =>
        simp only
        cases h1 : scan_auxv r1.buffer (buffer_size / 16) 0 s with
        | ok s2 =>
          cases h2 : scan_auxv r1.buffer (buffer_size / 16) 0 t with
          | ok t2 =>
            have := scan_view_ok _ _ s2 t2 hsc h1 h2
            simp only [reduceCtorEq, if_false]
            exact ih _ _ _ _ this.1 this.2
          | fault => rw [h1, h2] at hsc; simp [scan_view] at hsc
          | timeout => rw [h1, h2] at hsc; simp [scan_view] at hsc
        | fault =>
          cases h2 : scan_auxv r1.buffer (buffer_size / 16) 0 t with
          | ok t2 => rw [h1, h2] at hsc; simp [scan_view] at hsc
          | fault => rfl
          | timeout => rw [h1, h2] at hsc; simp [scan_view] at hsc
        | timeout =>
          cases h2 : scan_auxv r1.buffer (buffer_size / 16) 0 t with
          | ok t2 => rw [h1, h2] at hsc; simp [scan_view] at hsc
          | fault => rw [h1, h2] at hsc; simp [scan_view] at hsc
          | timeout => rfl

theorem parse_view_congr (env : Env) (s t : State) (h : auxv_part s = auxv_part t) :
    parse_view (parse_auxv_contents env s) = parse_view (parse_auxv_contents env t) := by
  simp only [auxv_part, Prod.mk.injEq] at h
  obtain ⟨hpa, hp, he⟩ := h
  unfold parse_auxv_contents
  rw [hpa]
  split
  · simp [parse_view, he, hp]
  · cases env.auxv with
    | none => simp [parse_view, he, hp]
    | some src =>
      simp only
      exact parse_loop_view_congr _ _ _ _ _ he hp

theorem parse_env_congr (env1 env2 : Env) (s : State) (ha : env2.auxv = env1.auxv)
    (hb : env2.buffer0 = env1.buffer0) :
    parse_auxv_contents env2 s = parse_auxv_contents env1 s := by
  unfold parse_auxv_contents
  rw [ha, buffer_init_congr env2 env1 hb]

theorem returned_pagesize (env : Env) (s : State) :
    returned (get_auxv_pagesize env s) =
      pagesize_of_view (parse_view (parse_auxv_contents env s)) := by
  unfold get_auxv_pagesize
  cases parse_auxv_contents env s with
  | ok p =>
    obtain ⟨ret, s1⟩ := p
    simp only [parse_view, pagesize_of_view]
    split <;> rfl
  | fault => rfl
  | timeout => rfl

/-! ### What `is_vdso` leaves of the parser's statics -/

theorem get_vdso_from_auxv_parse (env : Env) (s : State) (res : Nat) (s2 : State)
    (h : get_vdso_from_auxv env s = .ok (res, s2)) :
    ∃ ret, parse_auxv_contents env s = .ok (ret, s2) := by
  unfold get_vdso_from_auxv at h
  cases hp : parse_auxv_contents env s with
  | fault => simp [hp] at h
  | timeout => simp [hp] at h
  | ok p =>
    obtain ⟨ret, s3⟩ := p
    simp only [hp] at h
    have hs : s3 = s2 := by
      split at h
      · cases h; rfl
      · cases h; rfl
    exact ⟨ret, by rw [hs]⟩

theorem is_vdso_auxv_part (fuel : Nat) (env : Env) (map : Nat) (b : Bool) (s1 : State)
    (h : is_vdso fuel env fresh map = .ok (b, s1)) :
    auxv_part s1 = auxv_part fresh ∨
    ∃ ret s2, parse_auxv_contents env { fresh with vdso_checked := true } = .ok (ret, s2) ∧
      auxv_part s1 = auxv_part s2 := by
  by_cases hmap : map = 0
  · subst hmap
    simp [is_vdso] at h
    rw [← h.2]
    exact Or.inl rfl
  · by_cases hA : get_vdso_from_aliases env.r_map = 0
    · right
      cases hB : get_vdso_from_auxv env { fresh with vdso_checked := true } with
      | fault => simp [is_vdso, hmap, fresh, hA] at h; simp [fresh] at hB; simp [hB] at h
      | timeout => simp [is_vdso, hmap, fresh, hA] at h; simp [fresh] at hB; simp [hB] at h
      | ok p =>
        obtain ⟨B, s2⟩ := p
        obtain ⟨ret, hp⟩ := get_vdso_from_auxv_parse env _ B s2 hB
        refine ⟨ret, s2, hp, ?_⟩
        by_cases hB0 : B = 0
        · subst hB0
          cases hC : get_vdso_from_maps fuel env s2 with
          | fault =>
            simp [is_vdso, hmap, fresh, hA] at h; simp [fresh] at hB; simp [hB, hC] at h
          | timeout =>
            simp [is_vdso, hmap, fresh, hA] at h; simp [fresh] at hB; simp [hB, hC] at h
          | ok p3 =>
            obtain ⟨C, s3⟩ := p3
            have hf3 := get_vdso_from_maps_frame fuel env s2 C s3 hC
            by_cases hC0 : C = 0
            · subst hC0
              rw [is_vdso_none fuel env fresh map s2 s3 hmap rfl hA hB hC] at h
              cases h
              rw [hf3]
              rfl
            · rw [is_vdso_maps fuel env fresh map C s2 s3 hmap rfl hA hB hC hC0] at h
              cases h
              rw [hf3]
              rfl
        · rw [is_vdso_auxv fuel env fresh map B s2 hmap rfl hA hB hB0] at h
          cases h
          rfl
    · rw [is_vdso_alias fuel env fresh map hmap rfl hA] at h
      cases h
      exact Or.inl rfl

theorem returned_pagesize_part (env : Env) (s t : State) (h : auxv_part s = auxv_part t) :
    returned (get_auxv_pagesize env s) = returned (get_auxv_pagesize env t) := by
  rw [returned_pagesize, returned_pagesize, parse_view_congr env s t h]

theorem returned_pagesize_parsed (env env1 : Env) (s0 s1 s2 : State) (ret : Int)
    (h0 : s0.parsed_auxv = 0) (hp : parse_auxv_contents env s0 = .ok (ret, s2))
    (hpart : auxv_part s1 = auxv_part s2) :
    returned (get_auxv_pagesize env1 s1) =
      pagesize_of_view (parse_view (parse_auxv_contents env s0)) := by
  have hf := (parse_auxv_frame env s0 ret s2 hp).2.2.2.2.2 h0
  simp only [auxv_part, Prod.mk.injEq] at hpart
  obtain ⟨hpa, hps, _⟩ := hpart
  rw [hp]
  rcases hf.2 with ⟨hr, h2⟩ | ⟨hr, h2⟩
  · subst hr
    have h1 : s1.parsed_auxv = -1 := by rw [hpa, h2]
    simp [returned, get_auxv_pagesize, parse_auxv_contents, h1, parse_view, pagesize_of_view]
  · subst hr
    have h1 : s1.parsed_auxv = 1 := by rw [hpa, h2]
    simp [returned, get_auxv_pagesize, parse_auxv_contents, h1, parse_view, pagesize_of_view,
      hps]

/-! ### The maps strategy on lines that fit -/

/-- When the first line of the maps listing labelled `[vdso]` has the range
`b`-`e` and the lines up to and including it have fewer than 4096 characters,
`get_vdso_from_maps` (with fuel for the lines up to that one) returns the first
module in chain order with `b ≤ l_ld < e`, and no module when the chain has none;
the lower bound is included in the range and the upper bound is not. -/
theorem maps_first_in_range (fuel : Nat) (env : Env) (s : State) (c b e : Nat)
    (pre post : List MapsLine)
    (hmaps : env.maps = some (pre ++ ⟨c, .three b e "[vdso]"⟩ :: post))
    (hpre : ∀ l ∈ pre, l.chars < line_size ∧ ∀ b1 e1, l.scan ≠ .three b1 e1 "[vdso]")
    (hlen : c < line_size) (hfuel : pre.length < fuel) :
    (∀ cpre m cpost, env.r_map = cpre ++ m :: cpost →
      (∀ x ∈ cpre, ¬ (b ≤ x.l_ld ∧ x.l_ld < e)) → b ≤ m.l_ld ∧ m.l_ld < e →
      ∃ s1, get_vdso_from_maps fuel env s = .ok (m.self, s1)) ∧
    ((∀ x ∈ env.r_map, ¬ (b ≤ x.l_ld ∧ x.l_ld < e)) →
      ∃ s1, get_vdso_from_maps fuel env s = .ok (0, s1)) ∧
    (∀ m : link_map, m.l_ld = b → b < e → match_range b e [m] = m.self) ∧
    (∀ m : link_map, m.l_ld = e → match_range b e [m] = 0) := by
  have h := get_vdso_from_maps_found fuel env s c b e pre post hmaps
    (fun l hl => (hpre l hl).1) hlen (fun l hl => (hpre l hl).2) hfuel
  refine ⟨?_, ?_, ?_, ?_⟩
  · intro cpre m cpost hch hcpre hm
    rw [hch] at h
    rw [match_range_first b e cpre cpost m hcpre hm] at h
    exact ⟨_, h⟩
  · intro hnone
    rw [match_range_none b e env.r_map hnone] at h
    exact ⟨_, h⟩
  · intro m hm hlt
    simp [match_range, hm, hlt]
  · intro m hm
    simp [match_range, hm]

/-- The listing of `c3_env`: the `[vdso]` line is the third line and the vDSO
module is the second of the chain. -/
theorem maps_first_in_range_c3 :
    ∃ s1, get_vdso_from_maps 3 c3_env fresh = .ok (c3_vdso.self, s1) :=
  (maps_first_in_range 3 c3_env fresh 80 140737354129408 140737354137600
    [⟨82, .three 4194304 4198400 "/bin/app"⟩, ⟨49, .two 140737351852032 140737351868416⟩]
    [⟨81, .three 140737488216064 140737488351232 "[stack]"⟩] rfl
    (by
      intro l hl
      simp at hl
      rcases hl with rfl | rfl <;> simp [line_size])
    (by decide) (by simp)).1
    [{ self := 4096, l_addr := 0, l_name := some "", l_ld := 6295080 }] c3_vdso [c3_libc] rfl
    (by
      intro x hx
      simp at hx
      subst hx
      simp)
    (by simp [c3_vdso])

/-! ### The page size after a query -/

/-- When a call of `is_vdso` from the fresh state has returned, a following call of
`get_auxv_pagesize` returns what a call of `get_auxv_pagesize` alone from the fresh
state returns (the same value, or a fault in both cases), for every content, when
`buffer` holds the same bytes on entry in both runs and they find either the same
sequence of read results or two sequences of successful reads that deliver the
same bytes. -/
theorem pagesize_after_is_vdso_same_buffer (fuel : Nat) (env1 env2 : Env) (map : Nat)
    (b : Bool) (s1 : State) (h : is_vdso fuel env1 fresh map = .ok (b, s1))
    (hbuf : env2.buffer0 = env1.buffer0)
    (hsame : env2.auxv = env1.auxv ∨
      ∃ src1 src2, env1.auxv = some src1 ∧ env2.auxv = some src2 ∧ script_ok src1 ∧
        script_ok src2 ∧ script_bytes src1 = script_bytes src2) :
    returned (get_auxv_pagesize env2 s1) = returned (get_auxv_pagesize env2 fresh) := by
  rcases is_vdso_auxv_part fuel env1 map b s1 h with hpart | ⟨ret, s2, hp, hpart⟩
  · exact returned_pagesize_part env2 s1 fresh hpart
  · rw [returned_pagesize_parsed env1 env2 _ s1 s2 ret rfl hp hpart, returned_pagesize]
    congr 1
    have hfresh : parse_view (parse_auxv_contents env1 { fresh with vdso_checked := true })
        = parse_view (parse_auxv_contents env1 fresh) := parse_view_congr env1 _ _ rfl
    rw [hfresh]
    rcases hsame with ha | ⟨src1, src2, h1, h2, hok1, hok2, hbytes⟩
    · rw [parse_env_congr env1 env2 fresh ha hbuf]
    · rw [parse_view_script_ok env1 fresh src1 h1 rfl hok1,
        parse_view_script_ok env2 fresh src2 h2 rfl hok2, hbytes,
        buffer_init_congr env2 env1 hbuf]

/-! ## Claims -/

/-- C1: from the fresh state, when exactly one module `M` of the chain has a name
equal to a vDSO alias, then whatever the auxiliary vector, the maps listing and
the rest of the environment are, a query on a module `m` of the chain returns
true exactly when `m` is `M`, and it leaves a state in which every further query
on a module of the chain, in any environment, again returns true exactly for `M`. -/
theorem C1_alias_unique (fuel : Nat) (env : Env) (M : link_map)
    (hc : chain_ok env.r_map) (hM : M ∈ env.r_map) (ha : alias_name M)
    (hu : ∀ m ∈ env.r_map, m ≠ M → ¬ alias_name m) :
    ∀ m ∈ env.r_map, ∃ s1,
      is_vdso fuel env fresh m.self = .ok (decide (m = M), s1) ∧
      ∀ (fuel1 : Nat) (env1 : Env), ∀ m1 ∈ env.r_map,
        is_vdso fuel1 env1 s1 m1.self = .ok (decide (m1 = M), s1) := by
  intro m hm
  have hres := aliases_unique env.r_map M hM ha hu
  have hM0 : M.self ≠ 0 := hc.1 M hM
  have hdec : ∀ x ∈ env.r_map, (x.self == M.self) = decide (x = M) := by
    intro x hx
    have := self_eq_iff env.r_map hc x M hx hM
    by_cases h : x = M
    · simp [h]
    · simp [h, this]
  refine ⟨{ fresh with vdso_checked := true, vdso := M.self }, ?_, ?_⟩
  · have hm0 : m.self ≠ 0 := hc.1 m hm
    simp only [is_vdso, hm0, if_false, hres, fresh]
    simp [hM0, hdec m hm]
  · intro fuel1 env1 m1 hm1
    rw [is_vdso_checked fuel1 env1 _ m1.self rfl (hc.1 m1 hm1)]
    simp [hdec m1 hm1]

theorem c1_hyps :
    chain_ok c1_env.r_map ∧ c1_vdso ∈ c1_env.r_map ∧ alias_name c1_vdso ∧
    (∀ m ∈ c1_env.r_map, m ≠ c1_vdso → ¬ alias_name m) ∧ c1_other ∈ c1_env.r_map := by
  refine ⟨by simp [chain_ok, c1_env, c1_chain], by simp [c1_env, c1_chain, c1_vdso],
    ⟨"linux-vdso.so", by simp [vdso_aliases], rfl⟩, ?_, by simp [c1_env, c1_chain, c1_other]⟩
  intro m hm hne
  simp [c1_env, c1_chain] at hm
  rcases hm with rfl | rfl | rfl | rfl
  · simp [alias_name, vdso_aliases]
  · exact absurd rfl hne
  · simp [alias_name, vdso_aliases]
  · simp [alias_name, vdso_aliases]

/-- C1 at a chain of four modules of which the second is named `linux-vdso.so`:
the query on that module returns true, the query on the unnamed module false. -/
theorem C1_alias_unique_witness :
    (∃ s1, is_vdso 0 c1_env fresh 8192 = .ok (true, s1) ∧
      ∀ (fuel1 : Nat) (env1 : Env), ∀ m1 ∈ c1_env.r_map,
        is_vdso fuel1 env1 s1 m1.self = .ok (decide (m1 = c1_vdso), s1)) ∧
    (∃ s1, is_vdso 0 c1_env fresh 16384 = .ok (false, s1) ∧
      ∀ (fuel1 : Nat) (env1 : Env), ∀ m1 ∈ c1_env.r_map,
        is_vdso fuel1 env1 s1 m1.self = .ok (decide (m1 = c1_vdso), s1)) :=
  ⟨C1_alias_unique 0 c1_env c1_vdso c1_hyps.1 c1_hyps.2.1 c1_hyps.2.2.1 c1_hyps.2.2.2.1
      c1_vdso c1_hyps.2.1,
   C1_alias_unique 0 c1_env c1_vdso c1_hyps.1 c1_hyps.2.1 c1_hyps.2.2.1 c1_hyps.2.2.2.1
      c1_other c1_hyps.2.2.2.2⟩

/-- C2 as stated fails: the well-formed vector `c2_bad_entries` has an `AT_PAGESZ`
entry with value 4096 and one with value `2^32 + 8192`, and `get_auxv_pagesize`
returns 8192, which is neither. -/
theorem C2_counterexample :
    auxv_ok c2_bad_entries 0 ∧
    (AT_PAGESZ, 4096) ∈ c2_bad_entries ∧ (AT_PAGESZ, 2 ^ 32 + 8192) ∈ c2_bad_entries ∧
    get_auxv_pagesize c2_bad_env fresh =
      .ok (8192, { fresh with auxv_pagesz := 8192, parsed_auxv := 1, auxv_opens := 1,
                              auxv_reads := 2 }) ∧
    (8192 : Int) ≠ 4096 ∧ (8192 : Int) ≠ 2 ^ 32 + 8192 := by
  refine ⟨?_, by simp [c2_bad_entries], by simp [c2_bad_entries], ?_, by decide, by decide⟩
  · simp [auxv_ok, c2_bad_entries, AT_PAGESZ, AT_NULL, WORD]
  · rfl

/-- C2 (amended): in the fresh state, for every well-formed auxiliary vector that
fits the 4096-byte buffer (fewer than 256 entries before the `AT_NULL` record),
delivered by reads none of which fails for good: when `(AT_PAGESZ, V)` is the last
`AT_PAGESZ` entry, `get_auxv_pagesize` returns `V` converted to `int`, which is `V`
itself when `V < 2^31`; when there is no `AT_PAGESZ` entry it returns 0. -/
theorem C2_pagesize_wellformed (env : Env) (src : List ReadResult)
    (entries : List (Nat × Nat)) (x : Nat)
    (hsrc : env.auxv = some src) (hok : script_ok src)
    (hbytes : script_bytes src = encode_auxv (entries ++ [(AT_NULL, x)]))
    (hv : auxv_ok entries x) (hfit : entries.length < 256) :
    (∀ pre V post, entries = pre ++ (AT_PAGESZ, V) :: post →
        (∀ r ∈ post, r.1 ≠ AT_PAGESZ) →
        (∃ s, get_auxv_pagesize env fresh = .ok (to_int V, s)) ∧
        (V < 2 ^ 31 → to_int V = (V : Int))) ∧
    ((∀ r ∈ entries, r.1 ≠ AT_PAGESZ) →
        ∃ s, get_auxv_pagesize env fresh = .ok (0, s)) := by
  obtain ⟨s, hs⟩ := pagesize_wellformed env src entries x hsrc hok hbytes hv hfit
  constructor
  · intro pre V post he hpost
    refine ⟨⟨s, ?_⟩, to_int_small V⟩
    rw [hs, he, last_pagesz_last pre post V 0 hpost]
  · intro hnone
    refine ⟨s, ?_⟩
    rw [hs, last_pagesz_none entries 0 hnone]

/-- C2 (amended) at a vector of four entries delivered by two reads with
interrupted reads in between. -/
theorem C2_pagesize_wellformed_witness :
    (∃ s, get_auxv_pagesize c2_env fresh = .ok (to_int 4096, s)) ∧
      (4096 < 2 ^ 31 → to_int 4096 = ((4096 : Nat) : Int)) :=
  (C2_pagesize_wellformed c2_env _ c2_entries 0 rfl
    (by
      intro r hr
      simp at hr
      rcases hr with rfl | rfl | rfl | rfl
      · simp
      · simp; decide
      · simp
      · simp; decide)
    (by simp [script_bytes])
    (by simp [auxv_ok, c2_entries, AT_SYSINFO_EHDR, AT_PAGESZ, AT_NULL, WORD])
    (by simp [c2_entries])).1
    [(AT_SYSINFO_EHDR, 140737488347136), (AT_PAGESZ, 16384)] 4096 [(16, 3219913727)] rfl
    (by simp [AT_PAGESZ])

theorem c3_hyps :
    chain_ok c3_env.r_map ∧ (∀ m ∈ c3_env.r_map, ¬ alias_name m) ∧
    script_ok [.data (encode_auxv (c3_entries ++ [(AT_NULL, 0)]))] ∧
    auxv_ok c3_entries 0 ∧ (∀ r ∈ c3_entries, r.1 ≠ AT_SYSINFO_EHDR) ∧
    (∀ l ∈ [MapsLine.mk 82 (.three 4194304 4198400 "/bin/app"),
            ⟨49, .two 140737351852032 140737351868416⟩],
      l.chars < line_size ∧ ∀ b1 e1, l.scan ≠ .three b1 e1 "[vdso]") ∧
    (∀ m ∈ c3_env.r_map, m ≠ c3_vdso →
      ¬ (140737354129408 ≤ m.l_ld ∧ m.l_ld < 140737354137600)) := by
  refine ⟨by simp [chain_ok, c3_env, c3_chain], ?_, ?_,
    by simp [auxv_ok, c3_entries, AT_PAGESZ, AT_NULL, WORD],
    by simp [c3_entries, AT_PAGESZ, AT_SYSINFO_EHDR], ?_, ?_⟩
  · intro m hm
    simp [c3_env, c3_chain] at hm
    rcases hm with rfl | rfl | rfl <;> simp [alias_name, vdso_aliases]
  · intro r hr
    rw [List.mem_singleton] at hr
    subst hr
    refine ⟨by simp, ?_⟩
    intro h
    have h2 := congrArg List.length (ReadResult.data.inj h)
    simp [encode_auxv_length, c3_entries] at h2
  · intro l hl
    simp at hl
    rcases hl with rfl | rfl <;> simp [line_size]
  · intro m hm hne
    simp [c3_env, c3_chain] at hm
    rcases hm with rfl | rfl | rfl
    · simp
    · exact absurd rfl hne
    · simp

/-- C3 (amended): from the fresh state, when no module name is a vDSO alias, the
auxiliary vector is well-formed, fits the 4096-byte buffer and has no
`AT_SYSINFO_EHDR` entry, the first line of the maps listing labelled `[vdso]` has
a range that contains the `l_ld` of exactly one module `M` of the chain, and
every line of the listing up to and including that one has fewer than 4096
characters, then (with fuel for the lines up to that one) a query on a module `m`
of the chain returns true exactly when `m` is `M`, on the first query and on
every later one. -/
theorem C3_maps_unique (fuel : Nat) (env : Env) (M : link_map) (src : List ReadResult)
    (entries : List (Nat × Nat)) (x c b e : Nat) (pre post : List MapsLine)
    (hc : chain_ok env.r_map) (hno : ∀ m ∈ env.r_map, ¬ alias_name m)
    (hsrc : env.auxv = some src) (hok : script_ok src)
    (hbytes : script_bytes src = encode_auxv (entries ++ [(AT_NULL, x)]))
    (hv : auxv_ok entries x) (hfit : entries.length < 256)
    (hne : ∀ r ∈ entries, r.1 ≠ AT_SYSINFO_EHDR)
    (hmaps : env.maps = some (pre ++ ⟨c, .three b e "[vdso]"⟩ :: post))
    (hpre : ∀ l ∈ pre, l.chars < line_size ∧ ∀ b1 e1, l.scan ≠ .three b1 e1 "[vdso]")
    (hlen : c < line_size) (hfuel : pre.length < fuel)
    (hM : M ∈ env.r_map) (hin : b ≤ M.l_ld ∧ M.l_ld < e)
    (hu : ∀ m ∈ env.r_map, m ≠ M → ¬ (b ≤ m.l_ld ∧ m.l_ld < e)) :
    ∀ m ∈ env.r_map, ∃ s1,
      is_vdso fuel env fresh m.self = .ok (decide (m = M), s1) ∧
      ∀ (fuel1 : Nat) (env1 : Env), ∀ m1 ∈ env.r_map,
        is_vdso fuel1 env1 s1 m1.self = .ok (decide (m1 = M), s1) := by
  intro m hm
  have hM0 : M.self ≠ 0 := hc.1 M hM
  have hdec : ∀ x ∈ env.r_map, (x.self == M.self) = decide (x = M) := by
    intro x hx
    have := self_eq_iff env.r_map hc x M hx hM
    by_cases h : x = M
    · simp [h]
    · simp [h, this]
  obtain ⟨s2, h2⟩ := get_vdso_from_auxv_no_ehdr env { fresh with vdso_checked := true } src
    entries x hsrc hok hbytes hv hfit rfl rfl hne
  have h3 := get_vdso_from_maps_found fuel env s2 c b e pre post hmaps
    (fun l hl => (hpre l hl).1) hlen (fun l hl => (hpre l hl).2) hfuel
  rw [match_range_unique b e env.r_map M hM hin hu] at h3
  have hq := is_vdso_maps fuel env fresh m.self M.self s2 _ (hc.1 m hm) rfl
    (aliases_none env.r_map hno) h2 h3 hM0
  rw [hdec m hm] at hq
  refine ⟨_, hq, ?_⟩
  intro fuel1 env1 m1 hm1
  have hf := get_vdso_from_auxv_frame env _ 0 s2 h2
  rw [is_vdso_checked fuel1 env1 _ m1.self (by simp [hf.1]) (hc.1 m1 hm1)]
  simp [hdec m1 hm1]

/-- C3 as stated fails: the listing of `c3_two_env` has a `[vdso]` line whose range
contains the `l_ld` of the module at 8192 and of no other module, the chain has
no alias name and the auxiliary vector no `AT_SYSINFO_EHDR` entry, but an earlier
`[vdso]` line is the one used and the query on that module returns false. -/
theorem C3_counterexample :
    chain_ok c3_chain ∧ (∀ m ∈ c3_chain, ¬ alias_name m) ∧
    auxv_ok c3_entries 0 ∧ (∀ r ∈ c3_entries, r.1 ≠ AT_SYSINFO_EHDR) ∧
    MapsLine.mk 80 (.three 140737354129408 140737354137600 "[vdso]") ∈
      c3_two_env.maps.getD [] ∧
    (∀ m ∈ c3_chain, (140737354129408 ≤ m.l_ld ∧ m.l_ld < 140737354137600) ↔ m.self = 8192) ∧
    is_vdso 5 c3_two_env fresh 8192 =
      .ok (false, { fresh with auxv_pagesz := 4096, parsed_auxv := 1, vdso_checked := true,
                               auxv_opens := 1, auxv_reads := 2, maps_opens := 1,
                               maps_reads := 1 }) := by
  refine ⟨?_, ?_, ?_, ?_, ?_, ?_, ?_⟩
  · simp [chain_ok, c3_chain]
  · intro m hm
    simp [c3_chain] at hm
    rcases hm with rfl | rfl | rfl <;> simp [alias_name, vdso_aliases]
  · simp [auxv_ok, c3_entries, AT_PAGESZ, AT_NULL, WORD]
  · simp [c3_entries, AT_PAGESZ, AT_SYSINFO_EHDR]
  · simp [c3_two_env]
  · intro m hm
    simp [c3_chain] at hm
    rcases hm with rfl | rfl | rfl <;> simp
  · rfl

/-- C3 (amended) at the chain `c3_chain` and a listing of four lines: the query on
the vDSO module returns true, the query on libc false. -/
theorem C3_maps_unique_witness :
    (∃ s1, is_vdso 3 c3_env fresh 8192 = .ok (true, s1) ∧
      ∀ (fuel1 : Nat) (env1 : Env), ∀ m1 ∈ c3_env.r_map,
        is_vdso fuel1 env1 s1 m1.self = .ok (decide (m1 = c3_vdso), s1)) ∧
    (∃ s1, is_vdso 3 c3_env fresh 12288 = .ok (false, s1) ∧
      ∀ (fuel1 : Nat) (env1 : Env), ∀ m1 ∈ c3_env.r_map,
        is_vdso fuel1 env1 s1 m1.self = .ok (decide (m1 = c3_vdso), s1)) :=
  ⟨C3_maps_unique 3 c3_env c3_vdso _ c3_entries 0 80 140737354129408 140737354137600
      [⟨82, .three 4194304 4198400 "/bin/app"⟩, ⟨49, .two 140737351852032 140737351868416⟩]
      [⟨81, .three 140737488216064 140737488351232 "[stack]"⟩]
      c3_hyps.1 c3_hyps.2.1 rfl c3_hyps.2.2.1 (by simp [script_bytes]) c3_hyps.2.2.2.1
      (by simp [c3_entries]) c3_hyps.2.2.2.2.1 rfl c3_hyps.2.2.2.2.2.1 (by decide) (by simp)
      (by simp [c3_env, c3_chain, c3_vdso]) (by simp [c3_vdso]) c3_hyps.2.2.2.2.2.2
      c3_vdso (by simp [c3_env, c3_chain, c3_vdso]),
   C3_maps_unique 3 c3_env c3_vdso _ c3_entries 0 80 140737354129408 140737354137600
      [⟨82, .three 4194304 4198400 "/bin/app"⟩, ⟨49, .two 140737351852032 140737351868416⟩]
      [⟨81, .three 140737488216064 140737488351232 "[stack]"⟩]
      c3_hyps.1 c3_hyps.2.1 rfl c3_hyps.2.2.1 (by simp [script_bytes]) c3_hyps.2.2.2.1
      (by simp [c3_entries]) c3_hyps.2.2.2.2.1 rfl c3_hyps.2.2.2.2.2.1 (by decide) (by simp)
      (by simp [c3_env, c3_chain, c3_vdso]) (by simp [c3_vdso]) c3_hyps.2.2.2.2.2.2
      c3_libc (by simp [c3_env, c3_chain, c3_libc])⟩

/-- C4: when, on the first non-null query from the fresh state, the alias strategy,
the auxv strategy and the maps strategy each return no module, the query returns
false and leaves a state with `vdso_checked` set and `vdso` null in which each
source has been opened exactly once; every later sequence of queries, whatever the
arguments and environments, returns false throughout and leaves that state as it
is, counters of the calls to the sources included. -/
theorem C4_none_memoized (fuel : Nat) (env : Env) (map : Nat) (s2 s3 : State)
    (hmap : map ≠ 0) (hA : get_vdso_from_aliases env.r_map = 0)
    (hB : get_vdso_from_auxv env { fresh with vdso_checked := true } = .ok (0, s2))
    (hC : get_vdso_from_maps fuel env s2 = .ok (0, s3)) :
    is_vdso fuel env fresh map = .ok (false, s3) ∧
    s3.vdso_checked = true ∧ s3.vdso = 0 ∧ s3.auxv_opens = 1 ∧ s3.maps_opens = 1 ∧
    ∀ qs : List (Nat × Env × Nat),
      is_vdso_calls s3 qs = .ok (qs.map (fun _ => false), s3) := by
  have hf2 := get_vdso_from_auxv_frame env _ 0 s2 hB
  have hf3 := get_vdso_from_maps_frame fuel env s2 0 s3 hC
  have hchk : s3.vdso_checked = true := by rw [hf3]; simp [hf2.1]
  have hv : s3.vdso = 0 := by rw [hf3]; simp [hf2.2.1, fresh]
  refine ⟨is_vdso_none fuel env fresh map s2 s3 hmap rfl hA hB hC, hchk, hv, ?_, ?_, ?_⟩
  · rw [hf3]
    simp [hf2.2.2.2.2 rfl, fresh]
  · rw [hf3]
    simp [hf2.2.2.1, fresh]
  · intro qs
    rw [is_vdso_calls_checked s3 hchk qs, hv]
    congr 2
    apply List.map_congr_left
    intro q _
    by_cases hq : q.2.2 = 0 <;> simp [hq]

/-- C4 at `c4_env`, where no strategy finds a module. -/
theorem C4_none_memoized_witness :
    is_vdso 4 c4_env fresh 8192
        = .ok (false, { c4_parsed with maps_opens := 1, maps_reads := 4 }) ∧
    ({ c4_parsed with maps_opens := 1, maps_reads := 4 } : State).vdso_checked = true ∧
    ({ c4_parsed with maps_opens := 1, maps_reads := 4 } : State).vdso = 0 ∧
    ({ c4_parsed with maps_opens := 1, maps_reads := 4 } : State).auxv_opens = 1 ∧
    ({ c4_parsed with maps_opens := 1, maps_reads := 4 } : State).maps_opens = 1 ∧
    ∀ qs : List (Nat × Env × Nat),
      is_vdso_calls { c4_parsed with maps_opens := 1, maps_reads := 4 } qs
        = .ok (qs.map (fun _ => false), { c4_parsed with maps_opens := 1, maps_reads := 4 }) :=
  C4_none_memoized 4 c4_env 8192 c4_parsed { c4_parsed with maps_opens := 1, maps_reads := 4 }
    (by decide) rfl rfl rfl

/-- C5: on the first non-null query from the fresh state the strategies are tried
in the order alias, auxv, maps, and the first one that returns a module decides:
(1) if the alias strategy returns `A`, the query compares with `A` and stores `A`,
whatever the auxiliary vector and the maps listing are; (2) if the alias strategy
returns none and the auxv strategy returns `B`, the query compares with `B` and
stores `B`, whatever the maps listing is; (3) if both return none, the query
compares with and stores what the maps strategy returns. -/
theorem C5_priority (fuel : Nat) (env : Env) (map : Nat) (hmap : map ≠ 0) :
    (∀ A, get_vdso_from_aliases env.r_map = A → A ≠ 0 →
      ∃ s1, is_vdso fuel env fresh map = .ok (map == A, s1) ∧ s1.vdso = A) ∧
    (∀ B s2, get_vdso_from_aliases env.r_map = 0 →
      get_vdso_from_auxv env { fresh with vdso_checked := true } = .ok (B, s2) → B ≠ 0 →
      ∃ s1, is_vdso fuel env fresh map = .ok (map == B, s1) ∧ s1.vdso = B) ∧
    (∀ C s2 s3, get_vdso_from_aliases env.r_map = 0 →
      get_vdso_from_auxv env { fresh with vdso_checked := true } = .ok (0, s2) →
      get_vdso_from_maps fuel env s2 = .ok (C, s3) →
      ∃ s1, is_vdso fuel env fresh map = .ok (map == C, s1) ∧ s1.vdso = C) := by
  refine ⟨?_, ?_, ?_⟩
  · intro A hA hA0
    have h := is_vdso_alias fuel env fresh map hmap rfl (by rw [hA]; exact hA0)
    rw [hA] at h
    exact ⟨_, h, rfl⟩
  · intro B s2 hA hB hB0
    exact ⟨_, is_vdso_auxv fuel env fresh map B s2 hmap rfl hA hB hB0, rfl⟩
  · intro C s2 s3 hA hB hC
    by_cases hC0 : C = 0
    · subst hC0
      have hf2 := get_vdso_from_auxv_frame env _ 0 s2 hB
      have hf3 := get_vdso_from_maps_frame fuel env s2 0 s3 hC
      refine ⟨s3, ?_, ?_⟩
      · rw [is_vdso_none fuel env fresh map s2 s3 hmap rfl hA hB hC]
        simp [hmap]
      · rw [hf3]
        simp [hf2.2.1, fresh]
    · exact ⟨_, is_vdso_maps fuel env fresh map C s2 s3 hmap rfl hA hB hC hC0, rfl⟩

/-- C5 at three environments: an alias match; an auxv match for the module at 8192
while the maps listing points at the module at 12288; a maps match. -/
theorem C5_priority_witness :
    (∃ s1, is_vdso 0 c1_env fresh 8192 = .ok (8192 == 8192, s1) ∧ s1.vdso = 8192) ∧
    (∃ s1, is_vdso 1 c5_env fresh 12288 = .ok (12288 == 8192, s1) ∧ s1.vdso = 8192) ∧
    (∃ s1, is_vdso 3 c3_env fresh 8192 = .ok (8192 == 8192, s1) ∧ s1.vdso = 8192) :=
  ⟨(C5_priority 0 c1_env 8192 (by decide)).1 8192 rfl (by decide),
   (C5_priority 1 c5_env 12288 (by decide)).2.1 8192
     { c4_parsed with vdso_ehdr := 140737354129408 } rfl rfl (by decide),
   (C5_priority 3 c3_env 8192 (by decide)).2.2 8192 c4_parsed
     { c4_parsed with maps_opens := 1, maps_reads := 3 } rfl rfl rfl⟩

/-- C6: after a first query with a non-null argument from the fresh state has
returned, it has returned true exactly when its argument is the stored module,
and every later sequence of queries with non-null arguments, each in an
environment of its own (chain, auxiliary vector and maps listing may all have
changed), returns for each query whether its argument is that stored module and
leaves the state, counters of the calls to the sources included, as it is. -/
theorem C6_memoized (fuel : Nat) (env : Env) (map : Nat) (b : Bool) (s1 : State)
    (hmap : map ≠ 0) (h : is_vdso fuel env fresh map = .ok (b, s1)) :
    b = (map == s1.vdso) ∧
    ∀ qs : List (Nat × Env × Nat), (∀ q ∈ qs, q.2.2 ≠ 0) →
      is_vdso_calls s1 qs = .ok (qs.map (fun q => q.2.2 == s1.vdso), s1) := by
  have hf := is_vdso_first fuel env fresh map b s1 hmap rfl rfl h
  refine ⟨hf.2, ?_⟩
  intro qs hqs
  rw [is_vdso_calls_checked s1 hf.1 qs]
  congr 2
  apply List.map_congr_left
  intro q hq
  simp [hqs q hq]

/-- C6 after a first query in `c3_env` that resolved the module at 8192. -/
theorem C6_memoized_witness :
    true = (8192 ==
      ({ c4_parsed with vdso := 8192, maps_opens := 1, maps_reads := 3 } : State).vdso) ∧
    ∀ qs : List (Nat × Env × Nat), (∀ q ∈ qs, q.2.2 ≠ 0) →
      is_vdso_calls { c4_parsed with vdso := 8192, maps_opens := 1, maps_reads := 3 } qs
        = .ok (qs.map (fun q => q.2.2 ==
              ({ c4_parsed with vdso := 8192, maps_opens := 1, maps_reads := 3 } : State).vdso),
            { c4_parsed with vdso := 8192, maps_opens := 1, maps_reads := 3 }) :=
  C6_memoized 3 c3_env 8192 true
    { c4_parsed with vdso := 8192, maps_opens := 1, maps_reads := 3 } (by decide) rfl

/-- C7: a call of `get_auxv_pagesize`, in any state and whatever the
auxiliary-vector source holds, ends (with a value or with a fault, never by lack
of fuel); and when it has returned a value, a second call returns the same value
whatever the source holds then, and leaves the state as it is, the counters of
opens and reads of the source included. -/
theorem C7_pagesize_memoized (env : Env) (s : State) :
    get_auxv_pagesize env s ≠ .timeout ∧
    ∀ (v : Int) (s1 : State), get_auxv_pagesize env s = .ok (v, s1) →
      ∀ env1 : Env, get_auxv_pagesize env1 s1 = .ok (v, s1) := by
  refine ⟨get_auxv_pagesize_total env s, ?_⟩
  intro v s1 h env1
  unfold get_auxv_pagesize at h
  cases hp : parse_auxv_contents env s with
  | fault => simp [hp] at h
  | timeout => simp [hp] at h
  | ok p =>
    obtain ⟨ret, s2⟩ := p
    have hf := parse_auxv_frame env s ret s2 hp
    simp only [hp] at h
    have hs : s2 = s1 := by
      split at h
      · cases h; rfl
      · cases h; rfl
    subst hs
    by_cases h0 : s.parsed_auxv = 0
    · rcases (hf.2.2.2.2.2 h0).2 with ⟨hr, hpa⟩ | ⟨hr, hpa⟩
      · subst hr
        simp at h
        subst h
        simp [get_auxv_pagesize, parse_auxv_contents, hpa]
      · subst hr
        simp at h
        subst h
        simp [get_auxv_pagesize, parse_auxv_contents, hpa]
    · have hss := hf.2.2.2.2.1 h0
      subst hss
      simp only [parse_auxv_contents, ne_eq, h0, not_false_eq_true, if_true] at hp
      simp only [get_auxv_pagesize, parse_auxv_contents, ne_eq, h0, not_false_eq_true, if_true]
      cases hp
      exact h

/-- C7 after a first call in `c3_env` that returned 4096: the second call, made
when reads of the source would fail, returns 4096 again. -/
theorem C7_pagesize_memoized_witness :
    get_auxv_pagesize c8_env
        { fresh with auxv_pagesz := 4096, parsed_auxv := 1, auxv_opens := 1, auxv_reads := 2 }
      = .ok (4096, { fresh with auxv_pagesz := 4096, parsed_auxv := 1, auxv_opens := 1,
                                auxv_reads := 2 }) :=
  (C7_pagesize_memoized c3_env fresh).2 4096
    { fresh with auxv_pagesz := 4096, parsed_auxv := 1, auxv_opens := 1, auxv_reads := 2 } rfl
    c8_env

/-- C8: in the fresh state, if `/proc/self/auxv` cannot be opened, or if a read
fails with an error other than `EINTR` after reads that were interrupted or
delivered bytes that fit the buffer, then `get_auxv_pagesize` returns 0 and leaves
`parsed_auxv = -1` with the page size still 0 and the vDSO header address still
null; every later call, whatever the source holds then, returns 0 (and every later
`parse_auxv_contents`, also the one made for `is_vdso`, returns -1) and leaves the
state as it is, the counters of opens and reads included. -/
theorem C8_failure_permanent (env : Env)
    (h : env.auxv = none ∨
      ∃ pre post, env.auxv = some (pre ++ .error :: post) ∧ script_ok pre ∧
        (script_bytes pre).length ≤ buffer_size) :
    ∃ s1, get_auxv_pagesize env fresh = .ok (0, s1) ∧
      s1.parsed_auxv = -1 ∧ s1.auxv_pagesz = 0 ∧ s1.vdso_ehdr = 0 ∧
      ∀ env1 : Env, get_auxv_pagesize env1 s1 = .ok (0, s1) ∧
        parse_auxv_contents env1 s1 = .ok (-1, s1) := by
  have hlater : ∀ s1 : State, s1.parsed_auxv = -1 →
      ∀ env1 : Env, get_auxv_pagesize env1 s1 = .ok (0, s1) ∧
        parse_auxv_contents env1 s1 = .ok (-1, s1) := by
    intro s1 hs1 env1
    simp [get_auxv_pagesize, parse_auxv_contents, hs1]
  rcases h with hnone | ⟨pre, post, hsrc, hok, hlen⟩
  · refine ⟨{ fresh with parsed_auxv := -1, auxv_opens := 1 }, ?_, rfl, rfl, rfl,
      hlater _ rfl⟩
    simp [get_auxv_pagesize, parse_auxv_contents, hnone, fresh]
  · obtain ⟨r1, h1⟩ := read_loop_error post pre ((pre ++ .error :: post).length + 2)
      (buffer_init env) 0 0 hok (by simp; omega) (by omega)
    refine ⟨{ fresh with parsed_auxv := -1, auxv_opens := 1, auxv_reads := r1.reads }, ?_,
      rfl, rfl, rfl, hlater _ rfl⟩
    simp only [get_auxv_pagesize, parse_auxv_contents, hsrc, fresh, ne_eq, not_true_eq_false,
      if_false]
    rw [parse_loop, h1]
    simp

/-- C8 at `c8_env`, whose third read fails. -/
theorem C8_failure_permanent_witness :
    ∃ s1, get_auxv_pagesize c8_env fresh = .ok (0, s1) ∧
      s1.parsed_auxv = -1 ∧ s1.auxv_pagesz = 0 ∧ s1.vdso_ehdr = 0 ∧
      ∀ env1 : Env, get_auxv_pagesize env1 s1 = .ok (0, s1) ∧
        parse_auxv_contents env1 s1 = .ok (-1, s1) :=
  C8_failure_permanent c8_env
    (Or.inr ⟨[.data (encode_auxv [(AT_PAGESZ, 4096)]), .eintr],
      [.data (encode_auxv [(AT_NULL, 0)])], rfl,
      by
        intro r hr
        simp at hr
        rcases hr with rfl | rfl
        · refine ⟨by simp, ?_⟩
          intro h
          have h2 := congrArg List.length (ReadResult.data.inj h)
          simp [encode_auxv_length] at h2
        · simp,
      by simp [script_bytes, encode_auxv_length, buffer_size]⟩)

/-- C9 (what the code does): (1) for the well-formed vector of 256 `AT_PAGESZ`
entries and an `AT_NULL` record, delivered by one read, the decoding loop finds no
`AT_NULL` among the 256 records of the buffer and reads the tag of the record past
the end of `buffer`; (2) for a content of one record with no `AT_NULL`, the loop
goes on into the bytes that were never read: the page size returned, 16843009,
comes from what the buffer held before the read. -/
theorem C9_decoder_overrun :
    parse_auxv_contents c9_env fresh = .fault ∧
    get_auxv_pagesize c9_short_env fresh =
      .ok (16843009, { fresh with vdso_ehdr := 140737354129408, auxv_pagesz := 16843009,
                                  parsed_auxv := 1, auxv_opens := 1, auxv_reads := 2 }) :=
  ⟨parse_c9_fault c9_env rfl fresh rfl, by
    set_option maxRecDepth 100000 in
    rfl⟩

/-- C10 (what the code does): the auxiliary vector gives the header address
140737354129408, the image there has one program header, of type `PT_LOAD`, so
none of type `PT_DYNAMIC`; the local `vdso_dynamic` is then used as it was on
entry, here 6295080, and `get_vdso_from_auxv` returns the main program (node
4096), whose `l_addr + 6295080` equals its `l_ld`. -/
theorem C10_no_dynamic_returns_module :
    (∀ p, p < (c10_env.ehdr_at 140737354129408).e_phnum →
      (c10_env.phdr_at (140737354129408 + 64 + 56 * p)).p_type ≠ PT_DYNAMIC) ∧
    get_vdso_from_auxv c10_env fresh =
      .ok (4096, { fresh with vdso_ehdr := 140737354129408, auxv_pagesz := 4096,
                              parsed_auxv := 1, auxv_opens := 1, auxv_reads := 2 }) := by
  constructor
  · intro p hp
    have hp0 : p = 0 := by
      simp [c10_env] at hp
      exact hp
    subst hp0
    simp [c10_env, PT_DYNAMIC]
  · rfl
/-- C11 (what the code does): when no line of the maps listing is labelled
`[vdso]` and the line left in `line` at the end of the file (the last line, or
what `line` held on entry when the listing is empty) has no label, the function
never returns, whatever the fuel. When the lines have fewer than 4096 characters
the `for (;;)` of `get_vdso_from_maps` never ends: `sscanf` does not return 3, the
`continue` skips the end-of-file test, and `fgets` leaves `line` as it is, so
the function runs out of fuel, whatever the fuel. -/
theorem C11_maps_loop_forever (env : Env) (s : State) (lines : List MapsLine)
    (hmaps : env.maps = some lines)
    (hno : ∀ l ∈ lines, ∀ b e, l.scan ≠ .three b e "[vdso]")
    (hlast : ∀ b e x, (final_line env.line0 lines).scan ≠ .three b e x) :
    (∀ fuel res, get_vdso_from_maps fuel env s ≠ .ok res) ∧
    ((∀ l ∈ lines, l.chars < line_size) → (final_line env.line0 lines).chars < line_size →
      ∀ fuel, get_vdso_from_maps fuel env s = .timeout) := by
  constructor
  · intro fuel res h
    unfold get_vdso_from_maps at h
    simp only [hmaps] at h
    have hn := maps_loop_never lines fuel env.line0 env.addr_begin0 env.addr_end0 env.name0 0
      hno hlast
    split at h
    · cases h
    · cases h
    · next found r hr => exact hn (found, r) hr
  · intro hfit hfit0 fuel
    unfold get_vdso_from_maps
    simp only [hmaps]
    rw [maps_loop_forever lines fuel env.line0 env.addr_begin0 env.addr_end0 env.name0 0
      hfit hfit0 hno hlast]

/-- C11 at `c11_env`, a listing of three lines that ends with an anonymous
mapping, and at the empty listing. -/
theorem C11_maps_loop_forever_witness :
    (∀ fuel, get_vdso_from_maps fuel c11_env fresh = .timeout) ∧
    (∀ fuel, get_vdso_from_maps fuel { c11_env with maps := some [] } fresh = .timeout) :=
  ⟨(C11_maps_loop_forever c11_env fresh _ rfl
      (by
        intro l hl b e
        simp at hl
        rcases hl with rfl | rfl | rfl <;> simp)
      (by intro b e x; simp [final_line, c11_env, c3_env])).2
      (by
        intro l hl
        simp at hl
        rcases hl with rfl | rfl | rfl <;> simp [line_size])
      (by simp [final_line, c11_env, c3_env, line_size]),
   (C11_maps_loop_forever { c11_env with maps := some [] } fresh [] rfl
      (by intro l hl; cases hl)
      (by intro b e x; simp [final_line, c11_env, c3_env])).2
      (by intro l hl; cases hl)
      (by simp [final_line, c11_env, c3_env, line_size])⟩

/-- C12 (what the code does): when `fopen` returns `NULL` the code calls `fgets`
on the null stream, a fault, and a first non-null query whose alias and auxv
strategies found nothing ends in that fault instead of returning false. -/
theorem C12_maps_unavailable_fault (fuel : Nat) (env : Env) (map : Nat) (s2 : State)
    (hmaps : env.maps = none) (hmap : map ≠ 0)
    (hA : get_vdso_from_aliases env.r_map = 0)
    (hB : get_vdso_from_auxv env { fresh with vdso_checked := true } = .ok (0, s2)) :
    get_vdso_from_maps fuel env s2 = .fault ∧ is_vdso fuel env fresh map = .fault := by
  have hC : get_vdso_from_maps fuel env s2 = .fault := by
    simp [get_vdso_from_maps, hmaps]
  refine ⟨hC, ?_⟩
  simp [is_vdso, hmap, fresh, hA]
  simp only [fresh] at hB
  rw [hB]
  simp [hC]

/-- C12 at `c12_env`: no alias, no `AT_SYSINFO_EHDR` entry, no maps listing. -/
theorem C12_maps_unavailable_fault_witness :
    get_vdso_from_maps 4 c12_env c4_parsed = .fault ∧ is_vdso 4 c12_env fresh 8192 = .fault :=
  C12_maps_unavailable_fault 4 c12_env 8192 c4_parsed rfl (by decide) rfl rfl

/-- C13 as stated fails: the vector `[(AT_PAGESZ, 4096), (AT_PAGESZ, 8192)]` and
its reversal, each closed by `AT_NULL`, decode from the fresh state to the page
sizes 8192 and 4096. -/
theorem C13_counterexample :
    c13_entries.reverse.Perm c13_entries ∧ auxv_ok c13_entries 0 ∧
    parse_auxv_contents c13_env fresh =
      .ok (0, { fresh with auxv_pagesz := 8192, parsed_auxv := 1, auxv_opens := 1,
                           auxv_reads := 2 }) ∧
    parse_auxv_contents c13_reordered_env fresh =
      .ok (0, { fresh with auxv_pagesz := 4096, parsed_auxv := 1, auxv_opens := 1,
                           auxv_reads := 2 }) ∧
    (8192 : Int) ≠ 4096 := by
  refine ⟨List.reverse_perm _, ?_, rfl, rfl, by decide⟩
  simp [auxv_ok, c13_entries, AT_PAGESZ, AT_NULL, WORD]

/-- C13 (amended): for a well-formed auxiliary vector that fits the 4096-byte
buffer and in which all `AT_PAGESZ` entries carry the same value and all
`AT_SYSINFO_EHDR` entries carry the same value (in particular when each of the
two tags occurs at most once), and for every reordering of its entries before the
`AT_NULL` record, decoding the reordered vector from the fresh state returns 0 and
stores the same page size and the same header address as decoding the original. -/
theorem C13_reorder_invariant (env1 env2 : Env) (src1 src2 : List ReadResult)
    (e1 e2 : List (Nat × Nat)) (x : Nat)
    (hperm : e1.Perm e2) (hv : auxv_ok e1 x) (hfit : e1.length < 256)
    (hP : ∀ r ∈ e1, ∀ t ∈ e1, r.1 = AT_PAGESZ → t.1 = AT_PAGESZ → r.2 = t.2)
    (hE : ∀ r ∈ e1, ∀ t ∈ e1, r.1 = AT_SYSINFO_EHDR → t.1 = AT_SYSINFO_EHDR → r.2 = t.2)
    (hsrc1 : env1.auxv = some src1) (hok1 : script_ok src1)
    (hbytes1 : script_bytes src1 = encode_auxv (e1 ++ [(AT_NULL, x)]))
    (hsrc2 : env2.auxv = some src2) (hok2 : script_ok src2)
    (hbytes2 : script_bytes src2 = encode_auxv (e2 ++ [(AT_NULL, x)])) :
    ∃ s1 s2, parse_auxv_contents env1 fresh = .ok (0, s1) ∧
      parse_auxv_contents env2 fresh = .ok (0, s2) ∧
      s1.auxv_pagesz = s2.auxv_pagesz ∧ s1.vdso_ehdr = s2.vdso_ehdr := by
  have hv2 : auxv_ok e2 x := ⟨fun r hr => hv.1 r (hperm.mem_iff.2 hr), hv.2⟩
  have hfit2 : e2.length < 256 := by rw [← hperm.length_eq]; exact hfit
  obtain ⟨k1, _, hp1⟩ := parse_wellformed env1 fresh src1 e1 x hsrc1 hok1 hbytes1 hv hfit rfl
  obtain ⟨k2, _, hp2⟩ := parse_wellformed env2 fresh src2 e2 x hsrc2 hok2 hbytes2 hv2 hfit2 rfl
  refine ⟨_, _, hp1, hp2, ?_, ?_⟩
  · exact last_pagesz_perm e1 e2 _ hperm hP
  · exact last_ehdr_perm e1 e2 _ hperm hE

/-- C13 (amended) at the entries of `c2_entries` without the first `AT_PAGESZ`
entry, and their reversal. -/
theorem C13_reorder_invariant_witness :
    ∃ s1 s2,
      parse_auxv_contents
        { c3_env with auxv := some [.data (encode_auxv
            ([(AT_SYSINFO_EHDR, 140737488347136), (AT_PAGESZ, 4096), (16, 3219913727)]
              ++ [(AT_NULL, 0)]))] } fresh = .ok (0, s1) ∧
      parse_auxv_contents
        { c3_env with auxv := some [.data (encode_auxv
            ([(16, 3219913727), (AT_PAGESZ, 4096), (AT_SYSINFO_EHDR, 140737488347136)]
              ++ [(AT_NULL, 0)]))] } fresh = .ok (0, s2) ∧
      s1.auxv_pagesz = s2.auxv_pagesz ∧ s1.vdso_ehdr = s2.vdso_ehdr :=
  C13_reorder_invariant _ _ _ _
    [(AT_SYSINFO_EHDR, 140737488347136), (AT_PAGESZ, 4096), (16, 3219913727)]
    [(16, 3219913727), (AT_PAGESZ, 4096), (AT_SYSINFO_EHDR, 140737488347136)] 0
    (List.reverse_perm [(16, 3219913727), (AT_PAGESZ, 4096), (AT_SYSINFO_EHDR, 140737488347136)])
    (by simp [auxv_ok, AT_SYSINFO_EHDR, AT_PAGESZ, AT_NULL, WORD])
    (by simp)
    (by
      intro r hr t ht h1 h2
      simp at hr ht
      rcases hr with rfl | rfl | rfl <;> rcases ht with rfl | rfl | rfl <;>
        simp [AT_SYSINFO_EHDR, AT_PAGESZ] at h1 h2 ⊢)
    (by
      intro r hr t ht h1 h2
      simp at hr ht
      rcases hr with rfl | rfl | rfl <;> rcases ht with rfl | rfl | rfl <;>
        simp [AT_SYSINFO_EHDR, AT_PAGESZ] at h1 h2 ⊢)
    rfl
    (by
      intro r hr
      rw [List.mem_singleton] at hr
      subst hr
      refine ⟨by simp, ?_⟩
      intro h
      have h2 := congrArg List.length (ReadResult.data.inj h)
      simp [encode_auxv_length] at h2)
    (by simp [script_bytes])
    rfl
    (by
      intro r hr
      rw [List.mem_singleton] at hr
      subst hr
      refine ⟨by simp, ?_⟩
      intro h
      have h2 := congrArg List.length (ReadResult.data.inj h)
      simp [encode_auxv_length] at h2)
    (by simp [script_bytes])

/-- C14: `is_vdso` applied to the null pointer returns false and leaves the state
as it is, in every state and every environment. -/
theorem C14_null_is_false (fuel : Nat) (env : Env) (s : State) :
    is_vdso fuel env s 0 = .ok (false, s) := by
  simp [is_vdso]

/-- C15 (amended): when `parse_auxv_contents` has left a non-null header address
and, in the program header table of that image, the last entry of type
`PT_DYNAMIC` has virtual address `D`, `get_vdso_from_auxv` returns the first
module `m` in chain order with `(m.l_addr + D) mod 2^64 = m.l_ld`, and no module
when the chain has none. -/
theorem C15_auxv_first_match (env : Env) (s : State) (ret : Int) (s1 : State) (p D : Nat)
    (hparse : parse_auxv_contents env s = .ok (ret, s1)) (he : s1.vdso_ehdr ≠ 0)
    (hp : p < (env.ehdr_at s1.vdso_ehdr).e_phnum)
    (hdyn : (env.phdr_at (((env.ehdr_at s1.vdso_ehdr).e_phoff + s1.vdso_ehdr) % WORD
              + 56 * p)).p_type = PT_DYNAMIC)
    (hD : (env.phdr_at (((env.ehdr_at s1.vdso_ehdr).e_phoff + s1.vdso_ehdr) % WORD
              + 56 * p)).p_vaddr = D)
    (hlast : ∀ q, p < q → q < (env.ehdr_at s1.vdso_ehdr).e_phnum →
      (env.phdr_at (((env.ehdr_at s1.vdso_ehdr).e_phoff + s1.vdso_ehdr) % WORD
              + 56 * q)).p_type ≠ PT_DYNAMIC) :
    (∀ pre m post, env.r_map = pre ++ m :: post →
      (∀ x ∈ pre, (x.l_addr + D) % WORD ≠ x.l_ld) → (m.l_addr + D) % WORD = m.l_ld →
      get_vdso_from_auxv env s = .ok (m.self, s1)) ∧
    ((∀ x ∈ env.r_map, (x.l_addr + D) % WORD ≠ x.l_ld) →
      get_vdso_from_auxv env s = .ok (0, s1)) := by
  have h := get_vdso_from_auxv_eq env s ret s1 hparse he
  rw [phdr_loop_last env _ env.vdso_dynamic0 p _ hp hdyn hlast, hD] at h
  constructor
  · intro pre m post hch hpre hm
    rw [h, hch, match_dynamic_first D pre post m hpre hm]
  · intro hnone
    rw [h, match_dynamic_none D env.r_map hnone]

/-- C15 as stated fails: the table of `c15_two_env` has a `PT_DYNAMIC` entry with
virtual address 864, and the first (and only) module with `l_addr + 864 = l_ld` is
the one at 8192; but a later `PT_DYNAMIC` entry, with virtual address 1000, is the
one whose address is kept, and `get_vdso_from_auxv` returns no module. -/
theorem C15_counterexample :
    (c15_two_env.phdr_at (140737354129408 + 64)).p_type = PT_DYNAMIC ∧
    (c15_two_env.phdr_at (140737354129408 + 64)).p_vaddr = 864 ∧
    (∀ m ∈ c15_two_env.r_map, (m.l_addr + 864) % WORD = m.l_ld ↔ m.self = 8192) ∧
    get_vdso_from_auxv c15_two_env fresh = .ok (0, c5_parsed) := by
  refine ⟨rfl, rfl, ?_, rfl⟩
  intro m hm
  simp [c15_two_env, c5_env, c3_chain] at hm
  rcases hm with rfl | rfl | rfl <;> simp [WORD]

/-- C15 (amended) at `c5_env`: the table is a `PT_LOAD` entry followed by a
`PT_DYNAMIC` entry with virtual address 864, and the second module of the chain is
the first with `l_addr + 864 = l_ld`. -/
theorem C15_auxv_first_match_witness :
    get_vdso_from_auxv c5_env fresh = .ok (c3_vdso.self, c5_parsed) :=
  (C15_auxv_first_match c5_env fresh 0 c5_parsed 1 864 rfl (by decide) (by decide) rfl rfl
    (by
      intro q h1 h2
      have h3 : q < 2 := h2
      omega)).1
    [{ self := 4096, l_addr := 0, l_name := some "", l_ld := 6295080 }] c3_vdso [c3_libc] rfl
    (by
      intro x hx
      simp at hx
      subst hx
      simp [WORD])
    (by simp [c3_vdso, WORD])

/-- C16: (1) `get_vdso_from_aliases` returns the first module in chain order whose
name is present and equal to an alias; (2) in a chain of non-null nodes it returns
no module exactly when no module has such a name; (3) a module matches exactly
when its name is present and is `linux-vdso.so` or `linux-gate.so`, so a module
with no name, or with a longer name such as `linux-vdso.so.1`, does not match. -/
theorem C16_alias_first (chain : List link_map) (hc : ∀ m ∈ chain, m.self ≠ 0) :
    (∀ pre m post, chain = pre ++ m :: post → (∀ x ∈ pre, ¬ alias_name x) → alias_name m →
      get_vdso_from_aliases chain = m.self) ∧
    (get_vdso_from_aliases chain = 0 ↔ ∀ m ∈ chain, ¬ alias_name m) ∧
    (∀ m : link_map, alias_match m vdso_aliases = true ↔
      (m.l_name = some "linux-vdso.so" ∨ m.l_name = some "linux-gate.so")) ∧
    (∀ m : link_map, alias_name m ↔
      (m.l_name = some "linux-vdso.so" ∨ m.l_name = some "linux-gate.so")) ∧
    (∀ m : link_map, m.l_name = none ∨ m.l_name = some "linux-vdso.so.1" →
      alias_match m vdso_aliases = false) := by
  have hname : ∀ m : link_map, alias_name m ↔
      (m.l_name = some "linux-vdso.so" ∨ m.l_name = some "linux-gate.so") := by
    intro m
    simp [alias_name, vdso_aliases]
  refine ⟨?_, aliases_zero_iff chain hc, ?_, hname, ?_⟩
  · intro pre m post hch hpre hm
    rw [hch]
    exact aliases_first pre post m hpre hm
  · intro m
    rw [alias_match_iff_name, hname]
  · intro m hm
    have hno : ¬ alias_match m vdso_aliases = true := by
      rw [alias_match_iff_name, hname]
      rcases hm with h | h <;> simp [h]
    simpa using hno

/-- C16 at `c1_chain`: the module named `linux-vdso.so` is returned, the one
before it has an empty name. -/
theorem C16_alias_first_witness :
    get_vdso_from_aliases c1_chain = c1_vdso.self :=
  (C16_alias_first c1_chain
    (by
      intro m hm
      simp [c1_chain] at hm
      rcases hm with rfl | rfl | rfl | rfl <;> simp)).1
    [{ self := 4096, l_addr := 0, l_name := some "", l_ld := 100 }] c1_vdso
    [{ self := 12288, l_addr := 3000, l_name := some "linux-vdso.so.1", l_ld := 3500 },
     { self := 16384, l_addr := 5000, l_name := none, l_ld := 5500 }]
    rfl
    (by
      intro x hx
      simp at hx
      subst hx
      simp [alias_name, vdso_aliases])
    ⟨"linux-vdso.so", by simp [vdso_aliases], rfl⟩

/-- C17 (what the code does): in the listing of `c17_env` the first line labelled
`[vdso]` is the third line, with the range 140737354129408-140737354137600, and
the first module of the chain whose `l_ld` lies in that range is the one at 8192;
but the second line has 4121 characters, `fgets(line, 4097, maps)` stores 4097
bytes into the 4096 bytes of `line`, and the function ends in that fault instead
of returning the module: it faults as soon as the fuel reaches the second line
and returns for no fuel. -/
theorem C17_maps_long_line_fault :
    (∃ pre post,
      c17_env.maps =
        some (pre ++ ⟨80, .three 140737354129408 140737354137600 "[vdso]"⟩ :: post) ∧
      ∀ l ∈ pre, ∀ b e, l.scan ≠ .three b e "[vdso]") ∧
    (∃ cpre cpost, c17_env.r_map = cpre ++ c3_vdso :: cpost ∧
      (∀ x ∈ cpre, ¬ (140737354129408 ≤ x.l_ld ∧ x.l_ld < 140737354137600)) ∧
      140737354129408 ≤ c3_vdso.l_ld ∧ c3_vdso.l_ld < 140737354137600) ∧
    (∀ fuel s, get_vdso_from_maps (fuel + 2) c17_env s = .fault) ∧
    (∀ fuel s res, get_vdso_from_maps fuel c17_env s ≠ .ok res) := by
  have hfault : ∀ fuel s, get_vdso_from_maps (fuel + 2) c17_env s = .fault := by
    intro fuel s
    exact get_vdso_from_maps_long_line (fuel + 2) c17_env s
      ⟨4121, .three 140737340000000 140737340100000 "/srv/data"⟩
      [⟨82, .three 4194304 4198400 "/bin/app"⟩]
      [⟨80, .three 140737354129408 140737354137600 "[vdso]"⟩,
       ⟨81, .three 140737488216064 140737488351232 "[stack]"⟩] rfl
      (by intro x hx; simp at hx; subst hx; simp [line_size])
      (by simp [line_size])
      (by intro x hx; simp at hx; subst hx; simp)
      (by simp)
  refine ⟨⟨[⟨82, .three 4194304 4198400 "/bin/app"⟩,
            ⟨4121, .three 140737340000000 140737340100000 "/srv/data"⟩],
           [⟨81, .three 140737488216064 140737488351232 "[stack]"⟩], rfl, ?_⟩,
    ⟨[{ self := 4096, l_addr := 0, l_name := some "", l_ld := 6295080 }], [c3_libc], rfl, ?_,
      by simp [c3_vdso], by simp [c3_vdso]⟩, hfault, ?_⟩
  · intro l hl b e
    simp at hl
    rcases hl with rfl | rfl <;> simp
  · intro x hx
    simp at hx
    subst hx
    simp
  · intro fuel s res
    match fuel with
    | 0 => intro h; cases h
    | 1 => intro h; cases h
    | f + 2 =>
      rw [hfault f s]
      intro h; cases h
/-- C18: started with `parsed_auxv = 0` (so in the fresh state), the outcome of
`parse_auxv_contents` seen through its return code, the stored page size and the
stored header address (or its fault) is the same when the bytes of the source are
delivered by any sequence of non-empty reads with interrupted reads in between as
when they all arrive in one read, `buffer` holding the same bytes on entry. When
the bytes are a vector with an `AT_NULL` record within the buffer, that outcome is
a function of the entries before it alone, whatever `buffer` held on entry. -/
theorem C18_delivery_independent (env1 env2 : Env) (s : State) (src : List ReadResult)
    (hs : s.parsed_auxv = 0) (hsrc1 : env1.auxv = some src) (hok : script_ok src)
    (hsrc2 : env2.auxv = some [.data (script_bytes src)])
    (hbuf : env1.buffer0 = env2.buffer0) :
    parse_view (parse_auxv_contents env1 s) = parse_view (parse_auxv_contents env2 s) ∧
    (∀ entries after x, script_bytes src = encode_auxv (entries ++ (AT_NULL, x) :: after) →
      auxv_ok entries x → (∀ r ∈ after, r.1 < WORD ∧ r.2 < WORD) → entries.length < 256 →
      parse_view (parse_auxv_contents env1 s) =
        .ok (0, last_pagesz entries s.auxv_pagesz, last_ehdr entries s.vdso_ehdr)) := by
  constructor
  · rw [parse_view_script_ok env1 s src hsrc1 hs hok,
      parse_view_one_read env2 s (script_bytes src) hsrc2 hs, buffer_init_congr env1 env2 hbuf]
  · intro entries after x hbytes hv ha hfit
    obtain ⟨k, _, hp⟩ := parse_wellformed_tail env1 s src entries after x hsrc1 hok hbytes hv
      ha hfit hs
    rw [hp]
    rfl

/-- C18 at `c2_env`, whose vector arrives in two reads of 21 and 59 bytes with two
interrupted reads, against `c18_env`, where the same 80 bytes arrive in one read. -/
theorem C18_delivery_independent_witness :
    parse_view (parse_auxv_contents c2_env fresh) =
      parse_view (parse_auxv_contents c18_env fresh) :=
  (C18_delivery_independent c2_env c18_env fresh c18_src rfl rfl
    (by
      intro r hr
      simp [c18_src] at hr
      rcases hr with rfl | rfl | rfl | rfl
      · simp
      · simp; decide
      · simp
      · simp; decide)
    rfl rfl).1

/-- C19: in the fresh state, for every auxiliary vector whose entries before the
first `AT_NULL` record number fewer than 256 (so for every vector that fits the
buffer), delivered by reads none of which fails for good: when `(AT_PAGESZ, V)` is
the last `AT_PAGESZ` entry before the first `AT_NULL` record, `get_auxv_pagesize`
returns `V` modulo `2^32` read as a signed 32-bit integer, whatever the entries
with other tags, the earlier `AT_PAGESZ` entries, and the records after the first
`AT_NULL` record are. -/
theorem C19_last_pagesz_as_int (env : Env) (src : List ReadResult)
    (pre post after : List (Nat × Nat)) (V x : Nat)
    (hsrc : env.auxv = some src) (hok : script_ok src)
    (hbytes : script_bytes src =
      encode_auxv ((pre ++ (AT_PAGESZ, V) :: post) ++ (AT_NULL, x) :: after))
    (hv : auxv_ok (pre ++ (AT_PAGESZ, V) :: post) x)
    (ha : ∀ r ∈ after, r.1 < WORD ∧ r.2 < WORD)
    (hpost : ∀ r ∈ post, r.1 ≠ AT_PAGESZ)
    (hfit : (pre ++ (AT_PAGESZ, V) :: post).length < 256) :
    (∃ s, get_auxv_pagesize env fresh = .ok (to_int V, s)) ∧
    to_int V =
      (if V % 2 ^ 32 < 2 ^ 31 then ((V % 2 ^ 32 : Nat) : Int)
       else ((V % 2 ^ 32 : Nat) : Int) - 2 ^ 32) := by
  obtain ⟨s, hs⟩ := pagesize_wellformed_tail env src _ after x hsrc hok hbytes hv ha hfit
  rw [last_pagesz_last pre post V 0 hpost] at hs
  exact ⟨⟨s, hs⟩, rfl⟩

/-- C19 at `c19_env`: two `AT_PAGESZ` entries before the first `AT_NULL` record,
the last with value `2^32 + 4096`, and one after it. -/
theorem C19_last_pagesz_as_int_witness :
    (∃ s, get_auxv_pagesize c19_env fresh = .ok (to_int (2 ^ 32 + 4096), s)) ∧
    to_int (2 ^ 32 + 4096) =
      (if (2 ^ 32 + 4096) % 2 ^ 32 < 2 ^ 31 then (((2 ^ 32 + 4096) % 2 ^ 32 : Nat) : Int)
       else (((2 ^ 32 + 4096) % 2 ^ 32 : Nat) : Int) - 2 ^ 32) :=
  C19_last_pagesz_as_int c19_env _
    [(AT_PAGESZ, 16384), (AT_SYSINFO_EHDR, 140737354129408)] [(16, 3219913727)]
    [(AT_PAGESZ, 65536), (AT_NULL, 0)] (2 ^ 32 + 4096) 0 rfl
    (by
      intro r hr
      rw [List.mem_singleton] at hr
      subst hr
      refine ⟨by simp, ?_⟩
      intro h
      have h2 := congrArg List.length (ReadResult.data.inj h)
      simp [encode_auxv_length] at h2)
    (by simp [script_bytes])
    (by simp [auxv_ok, AT_SYSINFO_EHDR, AT_PAGESZ, AT_NULL, WORD])
    (by simp [AT_PAGESZ, AT_NULL, WORD])
    (by simp [AT_PAGESZ])
    (by simp)

/-- C20 (amended): for a content of `/proc/self/auxv` that is well-formed up to an
`AT_NULL` record lying within the 4096 bytes of `buffer`, delivered by successful
reads, whatever `buffer` holds on entry: when a call of `is_vdso` from the fresh
state has returned, with any argument, chain and maps listing, a following call
of `get_auxv_pagesize` returns what a call of `get_auxv_pagesize` alone from the
fresh state returns, the value of the last `AT_PAGESZ` entry before the `AT_NULL`
record as an `int` (0 when there is none). -/
theorem C20_pagesize_after_is_vdso (fuel : Nat) (env1 env2 : Env) (map : Nat) (b : Bool)
    (s1 : State) (src1 src2 : List ReadResult) (entries after : List (Nat × Nat)) (x : Nat)
    (h : is_vdso fuel env1 fresh map = .ok (b, s1))
    (h1 : env1.auxv = some src1) (h2 : env2.auxv = some src2)
    (hok1 : script_ok src1) (hok2 : script_ok src2)
    (hb1 : script_bytes src1 = encode_auxv (entries ++ (AT_NULL, x) :: after))
    (hb2 : script_bytes src2 = script_bytes src1)
    (hv : auxv_ok entries x) (ha : ∀ r ∈ after, r.1 < WORD ∧ r.2 < WORD)
    (hfit : entries.length < 256) :
    returned (get_auxv_pagesize env2 s1) = returned (get_auxv_pagesize env2 fresh) ∧
    returned (get_auxv_pagesize env2 fresh) = .ok (last_pagesz entries 0) := by
  have hfresh : parse_view (parse_auxv_contents env1 { fresh with vdso_checked := true })
      = parse_view (parse_auxv_contents env1 fresh) := parse_view_congr env1 _ _ rfl
  obtain ⟨k2, _, hp2⟩ := parse_wellformed_tail env2 fresh src2 entries after x h2 hok2
    (by rw [hb2, hb1]) hv ha hfit rfl
  constructor
  · rcases is_vdso_auxv_part fuel env1 map b s1 h with hpart | ⟨ret, s2, hp, hpart⟩
    · exact returned_pagesize_part env2 s1 fresh hpart
    · rw [returned_pagesize_parsed env1 env2 _ s1 s2 ret rfl hp hpart, returned_pagesize]
      congr 1
      rw [hfresh]
      obtain ⟨k1, _, hp1⟩ := parse_wellformed_tail env1 fresh src1 entries after x h1 hok1
        hb1 hv ha hfit rfl
      rw [hp1, hp2]
      rfl
  · obtain ⟨s, hs⟩ := pagesize_wellformed_tail env2 src2 entries after x h2 hok2
      (by rw [hb2, hb1]) hv ha hfit
    rw [hs]
    rfl

/-- C20 as stated fails: `c20_short_env` and `c20_env` have the same content of
`/proc/self/auxv`, one record with no `AT_NULL` record after it, and differ in
the bytes that `buffer` holds on entry. The query on the module at 8192 in
`c20_short_env` returns true, by the auxv strategy, and leaves the page size
16843009, decoded from those bytes, which `get_auxv_pagesize` then returns;
`get_auxv_pagesize` alone from the fresh state returns 0 in `c20_env`. -/
theorem C20_counterexample :
    c20_env.auxv = c20_short_env.auxv ∧
    ∃ s1, is_vdso 3 c20_short_env fresh 8192 = .ok (true, s1) ∧
      returned (get_auxv_pagesize c20_env s1) = .ok 16843009 ∧
      returned (get_auxv_pagesize c20_env fresh) = .ok 0 := by
  refine ⟨rfl,
    { fresh with vdso_ehdr := 140737354129408, auxv_pagesz := 16843009, parsed_auxv := 1,
                 vdso_checked := true, vdso := 8192, auxv_opens := 1, auxv_reads := 2 },
    ?_, ?_, ?_⟩
  · set_option maxRecDepth 100000 in
    rfl
  · rfl
  · set_option maxRecDepth 100000 in
    rfl

/-- C20 (amended) at `c3_env`: after the query on the module at 8192, which parsed
the auxiliary vector, `get_auxv_pagesize` returns 4096 as it does when called
alone, also in `c20_filled_env`, where `buffer` holds other bytes on entry. -/
theorem C20_pagesize_after_is_vdso_witness :
    returned (get_auxv_pagesize c20_filled_env
        { c4_parsed with vdso := 8192, maps_opens := 1, maps_reads := 3 })
      = returned (get_auxv_pagesize c20_filled_env fresh) ∧
    returned (get_auxv_pagesize c20_filled_env fresh) = .ok (last_pagesz c3_entries 0) :=
  C20_pagesize_after_is_vdso 3 c3_env c20_filled_env 8192 true
    { c4_parsed with vdso := 8192, maps_opens := 1, maps_reads := 3 }
    [.data (encode_auxv (c3_entries ++ [(AT_NULL, 0)]))]
    [.data (encode_auxv (c3_entries ++ [(AT_NULL, 0)]))] c3_entries [] 0 rfl rfl rfl
    c3_hyps.2.2.1 c3_hyps.2.2.1 (by simp [script_bytes]) rfl c3_hyps.2.2.2.1
    (by intro r hr; cases hr) (by simp [c3_entries])

end Gotcha
